import Mathlib

/-! PSU archive encoder (`psu.go`)

A shallow embedding of the PS2 "PSU" save-file encoder: the header records, their
little-endian serialization by `encoding/binary`, the timestamp conversion, the
shared padding buffer, `writeFile` and `BuildPSU`.

Conventions of the embedding

* a byte is a `Nat` (values below 256); fixed-width unsigned conversions are
  written as explicit remainders (`uint8`, `uint16`, `uint32`);
* a Go `string` and a Go `[]byte` are lists of bytes;
* the `io.Writer` is a state-passing function: a `Writer` leaves the slices it is
  handed as it found them, a `SharedWriter` may write into them; the package-level
  variable `padding` is threaded through `writeFile` and `BuildPSU` explicitly;
* a run-time panic (slice bounds out of range) is an explicit outcome.
-/

namespace PSU

/-! ## Machine integers -/

/-- A byte of the output stream. -/
abbrev Byte := Nat

/-- Go conversion `uint8(x)` of an `int`. -/
def uint8 (x : Int) : Nat := (x % 256).toNat

/-- Go conversion `uint16(x)` of an `int`. -/
def uint16 (x : Int) : Nat := (x % 65536).toNat

/-- Go conversion `uint32(x)` of a non-negative `int` such as a `len`. -/
def uint32 (x : Nat) : Nat := x % 4294967296

/-! ## `time.Time` (standard library, only what `newPSUTimestamp` uses) -/

/-- An instant together with the zone it is expressed in: seconds since
1970-01-01T00:00:00Z (an `int64`) and the zone offset in seconds east of UTC. -/
structure Time where
  unix : Int
  offset : Int
deriving DecidableEq, Repr

namespace Time

/-- The same instant in UTC: `t.UTC()`. -/
def UTC (t : Time) : Time := { t with offset := 0 }

/-- The constant `unixToInternal + internalToAbsolute`: the seconds from the
absolute zero of the `time` package (1 January of year -292277022399) to
1970-01-01T00:00:00Z. It is `absoluteDays * 86400`. -/
def unixToAbsolute : Int := 9223372028715321600

/-- Days from the absolute zero of the `time` package to 1970-01-01. -/
def absoluteDays : Int := 106751991073094

/-- The method `t.abs()`: seconds of the wall clock since the absolute zero, as a
`uint64`; it wraps around for instants before the absolute zero. -/
def abs (t : Time) : Int := (t.unix + t.offset + unixToAbsolute) % 18446744073709551616

/-- Number of whole days between 1970-01-01 and the day of `t.abs()`. -/
def days (t : Time) : Int := t.abs / 86400 - absoluteDays

/-- Second of the minute: `t.Second()`. -/
def Second (t : Time) : Int := t.abs % 60

/-- Minute of the hour: `t.Minute()`. -/
def Minute (t : Time) : Int := t.abs % 3600 / 60

/-- Hour of the day: `t.Hour()`. -/
def Hour (t : Time) : Int := t.abs % 86400 / 3600

/-- Day of the 400-year era (0 .. 146096), eras starting on 1 March. -/
def dayOfEra (t : Time) : Int := (t.days + 719468) % 146097

/-- Year of the era (0 .. 399). -/
def yearOfEra (t : Time) : Int :=
  let doe := t.dayOfEra
  (doe - doe / 1460 + doe / 36524 - doe / 146096) / 365

/-- Day of the March-based year (0 .. 365). -/
def dayOfYearMar (t : Time) : Int :=
  let yoe := t.yearOfEra
  t.dayOfEra - (365 * yoe + yoe / 4 - yoe / 100)

/-- March-based month index (0 = March .. 11 = February). -/
def monthMar (t : Time) : Int := (5 * t.dayOfYearMar + 2) / 153

/-- Day of the month: `t.Day()`. -/
def Day (t : Time) : Int := t.dayOfYearMar - (153 * t.monthMar + 2) / 5 + 1

/-- Month number, January = 1: `t.Month()`. -/
def Month (t : Time) : Int := if t.monthMar < 10 then t.monthMar + 3 else t.monthMar - 9

/-- Proleptic Gregorian year: `t.Year()`. -/
def Year (t : Time) : Int :=
  t.yearOfEra + (t.days + 719468) / 146097 * 400 + (if t.Month ≤ 2 then 1 else 0)

end Time

/-! ## Data model -/

/-- The `PSUTimestamp` struct. -/
structure PSUTimestamp where
  Zero : Nat
  Seconds : Nat
  Minutes : Nat
  Hours : Nat
  Day : Nat
  Month : Nat
  Year : Nat
deriving DecidableEq, Repr

/-- The constant `PSUType_Directory`. -/
def PSUType_Directory : Nat := 0x8427

/-- The constant `PSUType_File`. -/
def PSUType_File : Nat := 0x8497

/-- A Go array `[32]byte`. -/
structure Name32 where
  bytes : List Byte
  len : bytes.length = 32

/-- The zero value `[32]byte{}`. -/
def Name32.zero : Name32 := ⟨List.replicate 32 0, by simp⟩

/-- The `PSUHeader` struct (`Typ` is the field `Type`); its blank (`_`) fields
hold no data and are produced by the serializer. -/
structure PSUHeader where
  Typ : Nat
  Size : Nat
  Created : PSUTimestamp
  Modified : PSUTimestamp
  Name : Name32

/-- The `File` struct. -/
structure File where
  Name : List Byte
  Created : Time
  Modified : Time
  Data : List Byte

/-- The builtin `copy(dst[:], src)` on a 32-byte array: the first
`min (len src) 32` bytes of `dst` are overwritten, the rest is kept. -/
def copyName (dst : Name32) (src : List Byte) : Name32 :=
  ⟨src.take 32 ++ dst.bytes.drop src.length, by
    have h := dst.len
    simp only [List.length_append, List.length_take, List.length_drop, h]
    omega⟩

/-- The function `newPSUTimestamp`. -/
def newPSUTimestamp (t : Time) : PSUTimestamp :=
  let t := t.UTC
  { Zero := 0
    Seconds := uint8 t.Second
    Minutes := uint8 t.Minute
    Hours := uint8 t.Hour
    Day := uint8 t.Day
    Month := uint8 t.Month
    Year := uint16 t.Year }

/-! ## `encoding/binary` with `binary.LittleEndian` -/

/-- One `uint8` field. -/
def putUint8 (v : Nat) : List Byte := [v % 256]

/-- `LittleEndian.PutUint16`. -/
def putUint16 (v : Nat) : List Byte := [v % 256, v / 256 % 256]

/-- `LittleEndian.PutUint32`. -/
def putUint32 (v : Nat) : List Byte :=
  [v % 256, v / 256 % 256, v / 65536 % 256, v / 16777216 % 256]

/-- A skipped blank field of `n` bytes: written as zeros. -/
def skip (n : Nat) : List Byte := List.replicate n 0

/-- Serialization of a `PSUTimestamp`, field by field. -/
def encodeTimestamp (t : PSUTimestamp) : List Byte :=
  putUint8 t.Zero ++ putUint8 t.Seconds ++ putUint8 t.Minutes ++ putUint8 t.Hours ++
    putUint8 t.Day ++ putUint8 t.Month ++ putUint16 t.Year

/-- Serialization of a `PSUHeader`, field by field in declaration order. -/
def encodeHeader (p : PSUHeader) : List Byte :=
  putUint16 p.Typ ++ skip 2 ++ putUint32 p.Size ++ encodeTimestamp p.Created ++ skip 8 ++
    encodeTimestamp p.Modified ++ skip 32 ++ p.Name.bytes ++ skip 416

/-! ## Sinks -/

/-- An `io.Writer` that honours the rule of the interface that `Write` must not
modify the slice data: one `Write` call takes the sink state and the bytes and
returns the new state and the error, if any. Sinks that write into the slice they
are handed are `SharedWriter`s. -/
structure Writer (σ ε : Type) where
  Write : σ → List Byte → σ × Option ε

/-- How a call ends: `return nil`, `return err`, or a run-time panic. -/
inductive Ret (ε : Type) where
  | nil : Ret ε
  | error : ε → Ret ε
  | panic : Ret ε
deriving DecidableEq, Repr

/-- The state after a call of `writeFile` or `BuildPSU`. -/
structure Run (σ ε : Type) where
  sink : σ
  padding : List Byte
  ret : Ret ε

/-- The function `binary.Write(b, binary.LittleEndian, data)` on already
serialized data: exactly one `Write` call, whose error is returned. -/
def binaryWrite {σ ε : Type} (b : Writer σ ε) (s : σ) (data : List Byte) : σ × Option ε :=
  b.Write s data

/-- A sink that accepts every write and keeps the bytes, like `bytes.Buffer`. -/
def bufWriter : Writer (List Byte) Unit := ⟨fun s bs => (s ++ bs, none)⟩

/-- A sink that accepts every write and records each call separately. -/
def recWriter : Writer (List (List Byte)) Unit := ⟨fun s bs => (s ++ [bs], none)⟩

/-! ## The encoder -/

/-- The builtin `make([]byte, n)`. -/
def make (n : Nat) : List Byte := List.replicate n 0

/-- The slice expression `s[:n]`; `none` is the bounds panic. -/
def sliceTo (s : List Byte) (n : Nat) : Option (List Byte) :=
  if n ≤ s.length then some (s.take n) else none

/-- The local `padSize` of `writeFile`. -/
def padSize (f : File) : Nat := 1024 - (f.Data.length % 1024)

/-- The statement `copy(p.Name[:], src)` on a header variable `p`. -/
def copyNameInto (p : PSUHeader) (src : List Byte) : PSUHeader :=
  { p with Name := copyName p.Name src }

/-- The header `writeFile` builds for a file. -/
def fileHeader (f : File) : PSUHeader :=
  copyNameInto
    { Typ := PSUType_File
      Size := uint32 f.Data.length
      Created := newPSUTimestamp f.Created
      Modified := newPSUTimestamp f.Modified
      Name := Name32.zero } f.Name

/-- The function `writeFile`, with the package variable `padding` passed in
and returned. -/
def writeFile {σ ε : Type} (b : Writer σ ε) (s : σ) (padding : List Byte) (f : File) :
    Run σ ε :=
  let p := fileHeader f
  match binaryWrite b s (encodeHeader p) with
  | (s1, some err) => ⟨s1, padding, .error err⟩
  | (s1, none) =>
    let padSize := padSize f
    let padding :=
      if padSize > 0 then (if padding.length < padSize then make padSize else padding)
      else padding
    match binaryWrite b s1 f.Data with
    | (s2, some err) => ⟨s2, padding, .error err⟩
    | (s2, none) =>
      match sliceTo padding padSize with
      | none => ⟨s2, padding, .panic⟩
      | some pad =>
        match binaryWrite b s2 pad with
        | (s3, some err) => ⟨s3, padding, .error err⟩
        | (s3, none) => ⟨s3, padding, .nil⟩

/-- The loop `for _, f := range files` of `BuildPSU`. -/
def writeFiles {σ ε : Type} (b : Writer σ ε) (s : σ) (padding : List Byte) :
    List File → Run σ ε
  | [] => ⟨s, padding, .nil⟩
  | f :: fs =>
    match writeFile b s padding f with
    | ⟨s1, padding1, .nil⟩ => writeFiles b s1 padding1 fs
    | r => r

/-- The root header `BuildPSU` builds first; `now1` and `now2` are the two
readings of `time.Now()`. -/
def rootHeader (now1 now2 : Time) (rootDirName : List Byte) (files : List File) : PSUHeader :=
  copyNameInto
    { Typ := PSUType_Directory
      Size := uint32 (3 + files.length)
      Created := newPSUTimestamp now1
      Modified := newPSUTimestamp now2
      Name := Name32.zero } rootDirName

/-- The header after `p.Size = 0; p.Name = [32]byte{}; copy(p.Name[:], ".")`. -/
def dotHeader (p : PSUHeader) : PSUHeader :=
  copyNameInto { p with Size := 0, Name := Name32.zero } [46]

/-- The header after the further `copy(p.Name[:], "..")`. -/
def dotDotHeader (p : PSUHeader) : PSUHeader :=
  copyNameInto p [46, 46]

/-- The function `BuildPSU`. -/
def BuildPSU {σ ε : Type} (b : Writer σ ε) (s : σ) (padding : List Byte)
    (now1 now2 : Time) (rootDirName : List Byte) (files : List File) : Run σ ε :=
  let p := rootHeader now1 now2 rootDirName files
  match binaryWrite b s (encodeHeader p) with
  | (s1, some err) => ⟨s1, padding, .error err⟩
  | (s1, none) =>
    let p := dotHeader p
    match binaryWrite b s1 (encodeHeader p) with
    | (s2, some err) => ⟨s2, padding, .error err⟩
    | (s2, none) =>
      let p := dotDotHeader p
      match binaryWrite b s2 (encodeHeader p) with
      | (s3, some err) => ⟨s3, padding, .error err⟩
      | (s3, none) => writeFiles b s3 padding files

/-! ## Reading a serialized header back -/

/-- `LittleEndian.Uint16` of a 2-byte field. -/
def getUint16 (bs : List Byte) : Nat := bs.getD 0 0 + 256 * bs.getD 1 0

/-- `LittleEndian.Uint32` of a 4-byte field. -/
def getUint32 (bs : List Byte) : Nat :=
  bs.getD 0 0 + 256 * bs.getD 1 0 + 65536 * bs.getD 2 0 + 16777216 * bs.getD 3 0

/-- The bytes at offsets `off .. off + n - 1`. -/
def field (bs : List Byte) (off n : Nat) : List Byte := (bs.drop off).take n

/-- The `i`-th 512-byte record of a stream (counting from 0). -/
def headerAt (out : List Byte) (i : Nat) : List Byte := field out (512 * i) 512

/-- The padding buffer as `writeFile` leaves it for a file. -/
def growPadding (padding : List Byte) (f : File) : List Byte :=
  if padSize f > 0 then (if padding.length < padSize f then make (padSize f) else padding)
  else padding

/-- The bytes `writeFile` hands to a sink that accepts every write. -/
def fileBlock (f : File) : List Byte :=
  encodeHeader (fileHeader f) ++ f.Data ++ List.replicate (padSize f) 0

/-- The number of bytes of the third write of `writeFile` (the padding write)
on a sink that accepts every write. -/
def paddingWritten (padding : List Byte) (f : File) : Nat :=
  ((writeFile recWriter [] padding f).sink.getD 2 []).length

/-- A file whose payload is exactly 1024 bytes long. -/
def file1024 : File := ⟨[65], ⟨0, 0⟩, ⟨0, 0⟩, List.replicate 1024 7⟩

/-- A file with an empty payload. -/
def file0 : File := ⟨[65], ⟨0, 0⟩, ⟨0, 0⟩, []⟩

/-- The largest padding size requested by a list of files, starting from `n`. -/
def padAfter (n : Nat) (fs : List File) : Nat := fs.foldl (fun m f => max m (padSize f)) n

/-- The timestamp layout in the words of the specification, starting with a
zero byte. -/
def specTimestamp (t : PSUTimestamp) : List Byte :=
  [0, t.Seconds % 256, t.Minutes % 256, t.Hours % 256, t.Day % 256, t.Month % 256,
    t.Year % 256, t.Year / 256 % 256]

/-- The header layout in the words of the specification. -/
def specLayout (p : PSUHeader) : List Byte :=
  [p.Typ % 256, p.Typ / 256 % 256] ++ [0, 0] ++
    [p.Size % 256, p.Size / 256 % 256, p.Size / 65536 % 256, p.Size / 16777216 % 256] ++
    specTimestamp p.Created ++ List.replicate 8 0 ++ specTimestamp p.Modified ++
    List.replicate 32 0 ++ p.Name.bytes ++ List.replicate 416 0

/-- A header value as the encoder builds them: any type tag, size and name
bytes, both timestamps made by `newPSUTimestamp`. -/
def headerOf (typ size : Nat) (created modified : Time) (name : Name32) : PSUHeader :=
  { Typ := typ
    Size := size
    Created := newPSUTimestamp created
    Modified := newPSUTimestamp modified
    Name := name }

/-- A file named `B` with a 10-byte payload and distinct timestamps. -/
def file10 : File := ⟨[66], ⟨1700000000, 3600⟩, ⟨1700000060, 0⟩, [1, 2, 3, 4, 5, 6, 7, 8, 9, 10]⟩

/-- The bytes of the Go string `"SAVE.BIN"`. -/
def saveBin : List Byte := [83, 65, 86, 69, 46, 66, 73, 78]

/-- The value `BuildPSU` and `writeFile` return for the error of a write
sequence: `nil` when no write failed, the error otherwise. -/
def toRet {ε : Type} : Option ε → Ret ε
  | none => .nil
  | some err => .error err

/-- Handing a sequence of buffers to the sink, one `Write` call each, stopping
after the first call that fails. -/
def writeAll {σ ε : Type} (b : Writer σ ε) (s : σ) : List (List Byte) → σ × Option ε
  | [] => (s, none)
  | w :: ws =>
    match b.Write s w with
    | (s1, some err) => (s1, some err)
    | (s1, none) => writeAll b s1 ws

/-- The three writes of `writeFile`: header, payload, padding. -/
def fileWrites (f : File) : List (List Byte) :=
  [encodeHeader (fileHeader f), f.Data, List.replicate (padSize f) 0]

/-- The writes of `BuildPSU` in order: three directory headers, then the three
writes of each file. -/
def allWrites (now1 now2 : Time) (rootDirName : List Byte) (files : List File) :
    List (List Byte) :=
  [encodeHeader (rootHeader now1 now2 rootDirName files),
    encodeHeader (dotHeader (rootHeader now1 now2 rootDirName files)),
    encodeHeader (dotDotHeader (dotHeader (rootHeader now1 now2 rootDirName files)))] ++
    files.flatMap fileWrites

/-- A sink that records every call and answers its `i`-th call (counted from 1)
with `plan i`. -/
def planWriter {ε : Type} (plan : Nat → Option ε) : Writer (List (List Byte)) ε :=
  ⟨fun s bs => (s ++ [bs], plan (s.length + 1))⟩

/-- A failure plan: the fifth call fails with error `7`, every other call succeeds. -/
def failFifth : Nat → Option Nat := fun i => if i = 5 then some 7 else none

/-- The bytes of a 512-byte header outside its two timestamp fields: offsets
0..7, 16..23 and 32..511. -/
def outsideTimestamps (hdr : List Byte) : List Byte :=
  field hdr 0 8 ++ field hdr 16 8 ++ field hdr 32 480

/-- The bytes of a 512-byte header outside its size and name fields: offsets
0..3, 8..63 and 96..511. -/
def outsideSizeAndName (hdr : List Byte) : List Byte :=
  field hdr 0 4 ++ field hdr 8 56 ++ field hdr 96 416

/-- Days since 1970-01-01 of the proleptic Gregorian date `y`-`m`-`d`. -/
def daysFromCivil (y m d : Int) : Int :=
  let y1 := if m ≤ 2 then y - 1 else y
  let era := y1 / 400
  let yoe := y1 - era * 400
  let mp := if m > 2 then m - 3 else m + 9
  let doy := (153 * mp + 2) / 5 + d - 1
  let doe := yoe * 365 + yoe / 4 - yoe / 100 + doy
  era * 146097 + doe - 719468

/-- The instant 2023-11-14T22:13:20Z, expressed in a zone one hour east of UTC. -/
def timeSample : Time := ⟨1700000000, 3600⟩

/-- The number of output bytes a file occupies: header, payload and padding. -/
def blockSize (f : File) : Nat := 512 + 1024 * (f.Data.length / 1024 + 1)

/-- The padding sizes a call of `writeFile` requests of the shared buffer: its
`padSize` once the header write has succeeded, none when that write fails. -/
def writeFileRequests {σ ε : Type} (b : Writer σ ε) (s : σ) (f : File) : List Nat :=
  match b.Write s (encodeHeader (fileHeader f)) with
  | (_, some _) => []
  | (_, none) => [padSize f]

/-- The padding sizes requested by the loop over the files, in order. -/
def writeFilesRequests {σ ε : Type} (b : Writer σ ε) (s : σ) (padding : List Byte) :
    List File → List Nat
  | [] => []
  | f :: fs =>
    writeFileRequests b s f ++
      match writeFile b s padding f with
      | ⟨s1, padding1, .nil⟩ => writeFilesRequests b s1 padding1 fs
      | _ => []

/-- The padding sizes requested by a call of `BuildPSU`, in order. -/
def buildRequests {σ ε : Type} (b : Writer σ ε) (s : σ) (padding : List Byte)
    (now1 now2 : Time) (rootDirName : List Byte) (files : List File) : List Nat :=
  match b.Write s (encodeHeader (rootHeader now1 now2 rootDirName files)) with
  | (_, some _) => []
  | (s1, none) =>
    match b.Write s1 (encodeHeader (dotHeader (rootHeader now1 now2 rootDirName files))) with
    | (_, some _) => []
    | (s2, none) =>
      match b.Write s2
        (encodeHeader (dotDotHeader (dotHeader (rootHeader now1 now2 rootDirName files)))) with
      | (_, some _) => []
      | (s3, none) => writeFilesRequests b s3 padding files

/-- The largest of a list of requested sizes, 0 for no request. -/
def largest (rs : List Nat) : Nat := rs.foldl max 0

/-! ## Sinks that write into the slice they are handed -/

/-- An `io.Writer` that need not honour the rule that `Write` must not modify the
slice data: besides the new sink state and the error, `Write` returns the bytes it
leaves in the slice it was handed. -/
structure SharedWriter (σ ε : Type) where
  Write : σ → List Byte → σ × List Byte × Option ε

/-- The sink leaves every slice as it found it. -/
def SharedWriter.Honest {σ ε : Type} (b : SharedWriter σ ε) : Prop :=
  ∀ s bs, (b.Write s bs).2.1 = bs

/-- A `Writer` as a sink that leaves the slice as it found it. -/
def Writer.lift {σ ε : Type} (b : Writer σ ε) : SharedWriter σ ε :=
  ⟨fun s bs => ((b.Write s bs).1, bs, (b.Write s bs).2)⟩

/-- A sink without what it leaves in the slice. -/
def SharedWriter.lower {σ ε : Type} (b : SharedWriter σ ε) : Writer σ ε :=
  ⟨fun s bs => ((b.Write s bs).1, (b.Write s bs).2.2)⟩

/-- The bytes of the slice `dst` after a sink has left `src` in it: at most
`len dst` bytes change, as with `copy(dst, src)`. -/
def overwrite (dst src : List Byte) : List Byte := src.take dst.length ++ dst.drop src.length

/-- The buffer `padding` after a sink has left `after` in the slice `padding[:n]`,
which shares the memory of the buffer. -/
def storeSlice (padding : List Byte) (n : Nat) (after : List Byte) : List Byte :=
  overwrite (padding.take n) after ++ padding.drop n

/-- The function `writeFile` on a sink that may write into the slices it is handed.
The header bytes are a temporary of `binary.Write` and the payload belongs to the
caller, so only what the sink leaves in `padding[:padSize]` reaches the package
variable `padding`. -/
def writeFileShared {σ ε : Type} (b : SharedWriter σ ε) (s : σ) (padding : List Byte)
    (f : File) : Run σ ε :=
  let p := fileHeader f
  match b.Write s (encodeHeader p) with
  | (s1, _, some err) => ⟨s1, padding, .error err⟩
  | (s1, _, none) =>
    let padSize := padSize f
    let padding :=
      if padSize > 0 then (if padding.length < padSize then make padSize else padding)
      else padding
    match b.Write s1 f.Data with
    | (s2, _, some err) => ⟨s2, padding, .error err⟩
    | (s2, _, none) =>
      match sliceTo padding padSize with
      | none => ⟨s2, padding, .panic⟩
      | some pad =>
        match b.Write s2 pad with
        | (s3, after, some err) => ⟨s3, storeSlice padding padSize after, .error err⟩
        | (s3, after, none) => ⟨s3, storeSlice padding padSize after, .nil⟩

/-- The loop over the files of `BuildPSU` on such a sink. -/
def writeFilesShared {σ ε : Type} (b : SharedWriter σ ε) (s : σ) (padding : List Byte) :
    List File → Run σ ε
  | [] => ⟨s, padding, .nil⟩
  | f :: fs =>
    match writeFileShared b s padding f with
    | ⟨s1, padding1, .nil⟩ => writeFilesShared b s1 padding1 fs
    | r => r

/-- The function `BuildPSU` on a sink that may write into the slices it is handed. -/
def BuildPSUShared {σ ε : Type} (b : SharedWriter σ ε) (s : σ) (padding : List Byte)
    (now1 now2 : Time) (rootDirName : List Byte) (files : List File) : Run σ ε :=
  let p := rootHeader now1 now2 rootDirName files
  match b.Write s (encodeHeader p) with
  | (s1, _, some err) => ⟨s1, padding, .error err⟩
  | (s1, _, none) =>
    let p := dotHeader p
    match b.Write s1 (encodeHeader p) with
    | (s2, _, some err) => ⟨s2, padding, .error err⟩
    | (s2, _, none) =>
      let p := dotDotHeader p
      match b.Write s2 (encodeHeader p) with
      | (s3, _, some err) => ⟨s3, padding, .error err⟩
      | (s3, _, none) => writeFilesShared b s3 padding files

/-- A sink that accepts every write, keeps the bytes, and then fills the slice it
was handed with `0xFF`. -/
def scribbler : SharedWriter (List Byte) Unit :=
  ⟨fun s bs => (s ++ bs, List.replicate bs.length 255, none)⟩

/-- The states of the shared padding buffer after a sequence of `writeFile` and
`BuildPSU` calls from the initial nil buffer, with any sinks and any inputs. -/
inductive ReachAny : List Byte → Prop where
  | init : ReachAny []
  | writeFile {σ ε : Type} (b : SharedWriter σ ε) (s : σ) (f : File) {padding : List Byte} :
      ReachAny padding → ReachAny (writeFileShared b s padding f).padding
  | buildPSU {σ ε : Type} (b : SharedWriter σ ε) (s : σ) (now1 now2 : Time)
      (rootDirName : List Byte) (files : List File) {padding : List Byte} :
      ReachAny padding →
        ReachAny (BuildPSUShared b s padding now1 now2 rootDirName files).padding

/-- The states of the shared padding buffer after a sequence of `writeFile` and
`BuildPSU` calls from the initial nil buffer, with any inputs and any sinks that
leave the slices they are handed as they found them, together with the padding
sizes requested so far. -/
inductive Reach : List Nat → List Byte → Prop where
  | init : Reach [] []
  | writeFile {σ ε : Type} (b : SharedWriter σ ε) (hb : b.Honest) (s : σ) (f : File)
      {rs : List Nat} {padding : List Byte} :
      Reach rs padding →
        Reach (rs ++ writeFileRequests b.lower s f) (writeFileShared b s padding f).padding
  | buildPSU {σ ε : Type} (b : SharedWriter σ ε) (hb : b.Honest) (s : σ) (now1 now2 : Time)
      (rootDirName : List Byte) (files : List File) {rs : List Nat} {padding : List Byte} :
      Reach rs padding →
        Reach (rs ++ buildRequests b.lower s padding now1 now2 rootDirName files)
          (BuildPSUShared b s padding now1 now2 rootDirName files).padding

/-! ## Basic facts -/

theorem padSize_pos (f : File) : 0 < padSize f := by
  unfold padSize; omega

theorem padSize_le (f : File) : padSize f ≤ 1024 := by
  unfold padSize; omega

theorem encodeTimestamp_length (t : PSUTimestamp) : (encodeTimestamp t).length = 8 := by
  simp [encodeTimestamp, putUint8, putUint16]

theorem encodeHeader_length (p : PSUHeader) : (encodeHeader p).length = 512 := by
  simp only [encodeHeader, putUint16, putUint32, skip, encodeTimestamp_length, p.Name.len,
    List.length_append, List.length_replicate, List.length_cons, List.length_nil]

theorem growPadding_make (n : Nat) (f : File) :
    growPadding (make n) f = make (max n (padSize f)) := by
  have h := padSize_pos f
  unfold growPadding
  simp only [gt_iff_lt, h, if_true, make, List.length_replicate]
  split
  · rw [max_eq_right (by omega)]
  · rw [max_eq_left (by omega)]

theorem sliceTo_make (m k : Nat) (h : k ≤ m) : sliceTo (make m) k = some (make k) := by
  simp [sliceTo, make, h, List.take_replicate]

theorem writeFile_buf (s : List Byte) (n : Nat) (f : File) :
    writeFile bufWriter s (make n) f = ⟨s ++ fileBlock f, make (max n (padSize f)), .nil⟩ := by
  have hg := growPadding_make n f
  unfold growPadding at hg
  simp only [writeFile, binaryWrite, bufWriter, hg, sliceTo_make _ _ (le_max_right n (padSize f))]
  simp [fileBlock, make]

theorem writeFile_rec (s : List (List Byte)) (n : Nat) (f : File) :
    writeFile recWriter s (make n) f =
      ⟨s ++ [encodeHeader (fileHeader f), f.Data, List.replicate (padSize f) 0],
        make (max n (padSize f)), .nil⟩ := by
  have hg := growPadding_make n f
  unfold growPadding at hg
  simp only [writeFile, binaryWrite, recWriter, hg, sliceTo_make _ _ (le_max_right n (padSize f))]
  simp [make]


theorem field_append (pre x post : List Byte) (off n : Nat) (h1 : pre.length = off)
    (h2 : x.length = n) : field (pre ++ x ++ post) off n = x := by
  unfold field
  rw [List.append_assoc, List.drop_left' h1, List.take_left' h2]

theorem field_zero (x post : List Byte) (n : Nat) (h : x.length = n) :
    field (x ++ post) 0 n = x := by
  unfold field
  rw [List.drop_zero, List.take_left' h]

theorem writeFiles_buf (fs : List File) (s : List Byte) (n : Nat) :
    writeFiles bufWriter s (make n) fs =
      ⟨s ++ fs.flatMap fileBlock, make (padAfter n fs), .nil⟩ := by
  induction fs generalizing s n with
  | nil => simp [writeFiles, padAfter]
  | cons f fs ih =>
    have hm := ih (s ++ fileBlock f) (max n (padSize f))
    simp only [padAfter] at hm
    simp [writeFiles, writeFile_buf, hm, padAfter]

theorem BuildPSU_buf (s : List Byte) (n : Nat) (now1 now2 : Time) (rootDirName : List Byte)
    (files : List File) :
    BuildPSU bufWriter s (make n) now1 now2 rootDirName files =
      ⟨s ++ encodeHeader (rootHeader now1 now2 rootDirName files) ++
          encodeHeader (dotHeader (rootHeader now1 now2 rootDirName files)) ++
          encodeHeader (dotDotHeader (dotHeader (rootHeader now1 now2 rootDirName files))) ++
          files.flatMap fileBlock, make (padAfter n files), .nil⟩ := by
  have hm := writeFiles_buf files
    (s ++ encodeHeader (rootHeader now1 now2 rootDirName files) ++
      encodeHeader (dotHeader (rootHeader now1 now2 rootDirName files)) ++
      encodeHeader (dotDotHeader (dotHeader (rootHeader now1 now2 rootDirName files)))) n
  simp only [BuildPSU, binaryWrite]
  simp only [bufWriter] at hm ⊢
  exact hm

theorem encodeHeader_typ (p : PSUHeader) : field (encodeHeader p) 0 2 = putUint16 p.Typ := by
  have h : encodeHeader p = putUint16 p.Typ ++ (skip 2 ++ putUint32 p.Size ++
      encodeTimestamp p.Created ++ skip 8 ++ encodeTimestamp p.Modified ++ skip 32 ++
      p.Name.bytes ++ skip 416) := by
    simp only [encodeHeader, List.append_assoc]
  rw [h]
  exact field_zero _ _ _ rfl

theorem encodeHeader_reserved2 (p : PSUHeader) : field (encodeHeader p) 2 2 = [0, 0] := by
  have h : encodeHeader p = putUint16 p.Typ ++ skip 2 ++ (putUint32 p.Size ++
      encodeTimestamp p.Created ++ skip 8 ++ encodeTimestamp p.Modified ++ skip 32 ++
      p.Name.bytes ++ skip 416) := by
    simp only [encodeHeader, List.append_assoc]
  rw [h]
  exact field_append _ _ _ _ _ rfl rfl

theorem encodeHeader_size (p : PSUHeader) : field (encodeHeader p) 4 4 = putUint32 p.Size := by
  have h : encodeHeader p = (putUint16 p.Typ ++ skip 2) ++ putUint32 p.Size ++
      (encodeTimestamp p.Created ++ skip 8 ++ encodeTimestamp p.Modified ++ skip 32 ++
      p.Name.bytes ++ skip 416) := by
    simp only [encodeHeader, List.append_assoc]
  rw [h]
  exact field_append _ _ _ _ _ rfl rfl

theorem encodeHeader_created (p : PSUHeader) :
    field (encodeHeader p) 8 8 = encodeTimestamp p.Created := by
  have h : encodeHeader p = (putUint16 p.Typ ++ skip 2 ++ putUint32 p.Size) ++
      encodeTimestamp p.Created ++ (skip 8 ++ encodeTimestamp p.Modified ++ skip 32 ++
      p.Name.bytes ++ skip 416) := by
    simp only [encodeHeader, List.append_assoc]
  rw [h]
  exact field_append _ _ _ _ _ rfl rfl

theorem encodeHeader_reserved8 (p : PSUHeader) :
    field (encodeHeader p) 16 8 = List.replicate 8 0 := by
  have h : encodeHeader p = (putUint16 p.Typ ++ skip 2 ++ putUint32 p.Size ++
      encodeTimestamp p.Created) ++ skip 8 ++ (encodeTimestamp p.Modified ++ skip 32 ++
      p.Name.bytes ++ skip 416) := by
    simp only [encodeHeader, List.append_assoc]
  rw [h]
  exact field_append _ _ _ _ _ rfl rfl

theorem encodeHeader_modified (p : PSUHeader) :
    field (encodeHeader p) 24 8 = encodeTimestamp p.Modified := by
  have h : encodeHeader p = (putUint16 p.Typ ++ skip 2 ++ putUint32 p.Size ++
      encodeTimestamp p.Created ++ skip 8) ++ encodeTimestamp p.Modified ++ (skip 32 ++
      p.Name.bytes ++ skip 416) := by
    simp only [encodeHeader, List.append_assoc]
  rw [h]
  exact field_append _ _ _ _ _ rfl rfl

theorem encodeHeader_reserved32 (p : PSUHeader) :
    field (encodeHeader p) 32 32 = List.replicate 32 0 := by
  have h : encodeHeader p = (putUint16 p.Typ ++ skip 2 ++ putUint32 p.Size ++
      encodeTimestamp p.Created ++ skip 8 ++ encodeTimestamp p.Modified) ++ skip 32 ++
      (p.Name.bytes ++ skip 416) := by
    simp only [encodeHeader, List.append_assoc]
  rw [h]
  exact field_append _ _ _ _ _ rfl rfl

theorem encodeHeader_name (p : PSUHeader) : field (encodeHeader p) 64 32 = p.Name.bytes := by
  unfold encodeHeader
  exact field_append _ _ _ _ _ rfl p.Name.len

theorem encodeHeader_reserved416 (p : PSUHeader) :
    field (encodeHeader p) 96 416 = List.replicate 416 0 := by
  have h : encodeHeader p = (putUint16 p.Typ ++ skip 2 ++ putUint32 p.Size ++
      encodeTimestamp p.Created ++ skip 8 ++ encodeTimestamp p.Modified ++ skip 32 ++
      p.Name.bytes) ++ skip 416 ++ [] := by
    simp only [encodeHeader, List.append_assoc, List.append_nil]
  rw [h]
  refine field_append _ _ _ _ _ ?_ ?_
  · simp only [List.length_append, p.Name.len]; rfl
  · simp only [skip, List.length_replicate]

theorem getUint16_putUint16 (v : Nat) : getUint16 (putUint16 v) = v % 65536 := by
  simp only [getUint16, putUint16, List.getD_cons_zero, List.getD_cons_succ]
  omega

theorem getUint32_putUint32 (v : Nat) : getUint32 (putUint32 v) = v % 4294967296 := by
  simp only [getUint32, putUint32, List.getD_cons_zero, List.getD_cons_succ]
  omega

theorem paddingWritten_make (n : Nat) (f : File) :
    paddingWritten (make n) f = 1024 - f.Data.length % 1024 := by
  simp [paddingWritten, writeFile_rec, padSize]

/-- C1 (code defect): for payloads of length 1024 and 0 the claimed padding
`(1024 - L % 1024) % 1024` is 0, but `writeFile` writes 1024 padding bytes, from
the initial empty padding buffer. -/
theorem padding_at_exact_multiple_is_full_block :
    file1024.Data.length = 1024 ∧ (1024 - file1024.Data.length % 1024) % 1024 = 0 ∧
      paddingWritten [] file1024 = 1024 ∧
    file0.Data.length = 0 ∧ (1024 - file0.Data.length % 1024) % 1024 = 0 ∧
      paddingWritten [] file0 = 1024 := by
  have h1 := paddingWritten_make 0 file1024
  have h0 := paddingWritten_make 0 file0
  have hl : file1024.Data.length = 1024 := by simp only [file1024, List.length_replicate]
  simp only [make, List.replicate] at h1 h0
  rw [h1, h0, hl]
  simp [file0]

/-- C2: for every file and every zero-filled padding buffer, the payload and the
padding `writeFile` writes after the 512-byte header have a total length that is
a multiple of 1024. -/
theorem payload_plus_padding_multiple_of_1024 (n : Nat) (f : File) :
    (f.Data.length + paddingWritten (make n) f) % 1024 = 0 ∧
      ((writeFile bufWriter [] (make n) f).sink.drop 512).length =
        f.Data.length + paddingWritten (make n) f ∧
      ((writeFile bufWriter [] (make n) f).sink.drop 512).length % 1024 = 0 := by
  have hp := paddingWritten_make n f
  have hl : ((writeFile bufWriter [] (make n) f).sink.drop 512).length =
      f.Data.length + paddingWritten (make n) f := by
    rw [writeFile_buf, hp]
    simp only [fileBlock, padSize, List.nil_append, List.length_drop, List.length_append,
      encodeHeader_length, List.length_replicate]
    omega
  refine ⟨?_, hl, ?_⟩
  · rw [hp]; omega
  · rw [hl, hp]; omega

/-- C3: the serialization of every `PSUHeader` value is exactly 512 bytes long. -/
theorem header_serialization_is_512_bytes (p : PSUHeader) : (encodeHeader p).length = 512 :=
  encodeHeader_length p

theorem encodeTimestamp_spec (t : PSUTimestamp) (h : t.Zero = 0) :
    encodeTimestamp t = specTimestamp t := by
  simp [encodeTimestamp, specTimestamp, putUint8, putUint16, h]

theorem layout_of_zero_timestamps (p : PSUHeader) (hc : p.Created.Zero = 0)
    (hm : p.Modified.Zero = 0) :
    encodeHeader p = specLayout p ∧
      field (encodeHeader p) 0 2 = [p.Typ % 256, p.Typ / 256 % 256] ∧
      field (encodeHeader p) 2 2 = [0, 0] ∧
      field (encodeHeader p) 4 4 =
        [p.Size % 256, p.Size / 256 % 256, p.Size / 65536 % 256, p.Size / 16777216 % 256] ∧
      field (encodeHeader p) 8 8 = specTimestamp p.Created ∧
      field (encodeHeader p) 16 8 = List.replicate 8 0 ∧
      field (encodeHeader p) 24 8 = specTimestamp p.Modified ∧
      field (encodeHeader p) 32 32 = List.replicate 32 0 ∧
      field (encodeHeader p) 64 32 = p.Name.bytes ∧
      field (encodeHeader p) 96 416 = List.replicate 416 0 := by
  refine ⟨?_, encodeHeader_typ p, encodeHeader_reserved2 p, encodeHeader_size p, ?_,
    encodeHeader_reserved8 p, ?_, encodeHeader_reserved32 p, encodeHeader_name p,
    encodeHeader_reserved416 p⟩
  · simp only [encodeHeader, specLayout, encodeTimestamp_spec _ hc, encodeTimestamp_spec _ hm,
      putUint16, putUint32, skip]
    rfl
  · rw [encodeHeader_created, encodeTimestamp_spec _ hc]
  · rw [encodeHeader_modified, encodeTimestamp_spec _ hm]

/-- C4: every `PSUHeader` value the encoder can build (any type tag, size, name
bytes, timestamps made by `newPSUTimestamp`; the root, `"."`, `".."` and file
headers are all of this form) is serialized as: type tag (2 bytes, little-endian),
2 zero bytes, size (4 bytes, little-endian), created timestamp, 8 zero bytes,
modified timestamp, 32 zero bytes, the 32 name bytes, 416 zero bytes, each
timestamp being a zero byte, seconds, minutes, hours, day, month and the year in 2
little-endian bytes; the tags serialize as `27 84` and `97 84`. -/
theorem header_layout (typ size : Nat) (created modified now1 now2 : Time) (name : Name32)
    (rootDirName : List Byte) (files : List File) (f : File) :
    encodeHeader (headerOf typ size created modified name) =
        specLayout (headerOf typ size created modified name) ∧
      field (encodeHeader (headerOf typ size created modified name)) 0 2 =
        [typ % 256, typ / 256 % 256] ∧
      field (encodeHeader (headerOf typ size created modified name)) 2 2 = [0, 0] ∧
      field (encodeHeader (headerOf typ size created modified name)) 4 4 =
        [size % 256, size / 256 % 256, size / 65536 % 256, size / 16777216 % 256] ∧
      field (encodeHeader (headerOf typ size created modified name)) 8 8 =
        [0, (newPSUTimestamp created).Seconds % 256, (newPSUTimestamp created).Minutes % 256,
          (newPSUTimestamp created).Hours % 256, (newPSUTimestamp created).Day % 256,
          (newPSUTimestamp created).Month % 256, (newPSUTimestamp created).Year % 256,
          (newPSUTimestamp created).Year / 256 % 256] ∧
      field (encodeHeader (headerOf typ size created modified name)) 16 8 =
        List.replicate 8 0 ∧
      field (encodeHeader (headerOf typ size created modified name)) 24 8 =
        [0, (newPSUTimestamp modified).Seconds % 256,
          (newPSUTimestamp modified).Minutes % 256, (newPSUTimestamp modified).Hours % 256,
          (newPSUTimestamp modified).Day % 256, (newPSUTimestamp modified).Month % 256,
          (newPSUTimestamp modified).Year % 256,
          (newPSUTimestamp modified).Year / 256 % 256] ∧
      field (encodeHeader (headerOf typ size created modified name)) 32 32 =
        List.replicate 32 0 ∧
      field (encodeHeader (headerOf typ size created modified name)) 64 32 = name.bytes ∧
      field (encodeHeader (headerOf typ size created modified name)) 96 416 =
        List.replicate 416 0 ∧
      putUint16 PSUType_Directory = [0x27, 0x84] ∧ putUint16 PSUType_File = [0x97, 0x84] ∧
      rootHeader now1 now2 rootDirName files =
        headerOf PSUType_Directory (uint32 (3 + files.length)) now1 now2
          (copyName Name32.zero rootDirName) ∧
      dotHeader (rootHeader now1 now2 rootDirName files) =
        headerOf PSUType_Directory 0 now1 now2 (copyName Name32.zero [46]) ∧
      dotDotHeader (dotHeader (rootHeader now1 now2 rootDirName files)) =
        headerOf PSUType_Directory 0 now1 now2
          (copyName (copyName Name32.zero [46]) [46, 46]) ∧
      fileHeader f =
        headerOf PSUType_File (uint32 f.Data.length) f.Created f.Modified
          (copyName Name32.zero f.Name) := by
  obtain ⟨h1, h2, h3, h4, h5, h6, h7, h8, h9, h10⟩ :=
    layout_of_zero_timestamps (headerOf typ size created modified name) rfl rfl
  exact ⟨h1, h2, h3, h4, h5, h6, h7, h8, h9, h10, by decide, by decide, rfl, rfl, rfl, rfl⟩

theorem encodeHeader_before_name (p : PSUHeader) :
    field (encodeHeader p) 0 64 =
      putUint16 p.Typ ++ skip 2 ++ putUint32 p.Size ++ encodeTimestamp p.Created ++ skip 8 ++
        encodeTimestamp p.Modified ++ skip 32 := by
  have h : encodeHeader p = (putUint16 p.Typ ++ skip 2 ++ putUint32 p.Size ++
      encodeTimestamp p.Created ++ skip 8 ++ encodeTimestamp p.Modified ++ skip 32) ++
      (p.Name.bytes ++ skip 416) := by
    simp only [encodeHeader, List.append_assoc]
  rw [h]
  exact field_zero _ _ _ rfl

theorem copyName_zero_bytes (src : List Byte) :
    (copyName Name32.zero src).bytes =
      src.take 32 ++ List.replicate (32 - min src.length 32) 0 := by
  simp only [copyName, Name32.zero, List.drop_replicate]
  congr 2
  omega

theorem headerAt_zero (h rest : List Byte) (hl : h.length = 512) :
    headerAt (h ++ rest) 0 = h := by
  unfold headerAt
  exact field_zero _ _ _ hl

theorem headerAt_one (h0 h rest : List Byte) (hl0 : h0.length = 512) (hl : h.length = 512) :
    headerAt (h0 ++ h ++ rest) 1 = h := by
  unfold headerAt
  exact field_append _ _ _ _ _ (by rw [hl0]) hl

theorem headerAt_two (h0 h1 h rest : List Byte) (hl0 : h0.length = 512)
    (hl1 : h1.length = 512) (hl : h.length = 512) :
    headerAt (h0 ++ h1 ++ h ++ rest) 2 = h := by
  unfold headerAt
  exact field_append _ _ _ _ _ (by rw [List.length_append, hl0, hl1]) hl

theorem BuildPSU_buf_sink (n : Nat) (now1 now2 : Time) (rootDirName : List Byte)
    (files : List File) :
    (BuildPSU bufWriter [] (make n) now1 now2 rootDirName files).sink =
      encodeHeader (rootHeader now1 now2 rootDirName files) ++
        encodeHeader (dotHeader (rootHeader now1 now2 rootDirName files)) ++
        encodeHeader (dotDotHeader (dotHeader (rootHeader now1 now2 rootDirName files))) ++
        files.flatMap fileBlock := by
  rw [BuildPSU_buf, List.nil_append]

theorem BuildPSU_header0 (n : Nat) (now1 now2 : Time) (rootDirName : List Byte)
    (files : List File) :
    headerAt (BuildPSU bufWriter [] (make n) now1 now2 rootDirName files).sink 0 =
      encodeHeader (rootHeader now1 now2 rootDirName files) := by
  rw [BuildPSU_buf_sink, List.append_assoc, List.append_assoc]
  exact headerAt_zero _ _ (encodeHeader_length _)

theorem BuildPSU_header1 (n : Nat) (now1 now2 : Time) (rootDirName : List Byte)
    (files : List File) :
    headerAt (BuildPSU bufWriter [] (make n) now1 now2 rootDirName files).sink 1 =
      encodeHeader (dotHeader (rootHeader now1 now2 rootDirName files)) := by
  rw [BuildPSU_buf_sink, List.append_assoc]
  exact headerAt_one _ _ _ (encodeHeader_length _) (encodeHeader_length _)

theorem BuildPSU_header2 (n : Nat) (now1 now2 : Time) (rootDirName : List Byte)
    (files : List File) :
    headerAt (BuildPSU bufWriter [] (make n) now1 now2 rootDirName files).sink 2 =
      encodeHeader (dotDotHeader (dotHeader (rootHeader now1 now2 rootDirName files))) := by
  rw [BuildPSU_buf_sink]
  exact headerAt_two _ _ _ _ (encodeHeader_length _) (encodeHeader_length _)
    (encodeHeader_length _)

theorem writeFile_buf_sink (n : Nat) (f : File) :
    (writeFile bufWriter [] (make n) f).sink =
      encodeHeader (fileHeader f) ++ f.Data ++ List.replicate (padSize f) 0 := by
  rw [writeFile_buf, List.nil_append, fileBlock]

theorem writeFile_header (n : Nat) (f : File) :
    headerAt (writeFile bufWriter [] (make n) f).sink 0 = encodeHeader (fileHeader f) := by
  rw [writeFile_buf_sink, List.append_assoc]
  exact headerAt_zero _ _ (encodeHeader_length _)

/-- C5: the name field (offsets 64..95) of the root header `BuildPSU` emits and of
the file header `writeFile` emits holds the first `min n 32` bytes of the name
followed by `32 - min n 32` zero bytes, and the header bytes before offset 64 and
from offset 96 on are the same for any other name. -/
theorem name_field_is_clipped_name (k : Nat) (now1 now2 : Time) (name other : List Byte)
    (files : List File) (f : File) :
    field (headerAt (BuildPSU bufWriter [] (make k) now1 now2 name files).sink 0) 64 32 =
        name.take (min name.length 32) ++ List.replicate (32 - min name.length 32) 0 ∧
      field (headerAt (writeFile bufWriter [] (make k) f).sink 0) 64 32 =
        f.Name.take (min f.Name.length 32) ++ List.replicate (32 - min f.Name.length 32) 0 ∧
      field (headerAt (BuildPSU bufWriter [] (make k) now1 now2 name files).sink 0) 0 64 =
        field (headerAt (BuildPSU bufWriter [] (make k) now1 now2 other files).sink 0) 0 64 ∧
      field (headerAt (BuildPSU bufWriter [] (make k) now1 now2 name files).sink 0) 96 416 =
        field (headerAt (BuildPSU bufWriter [] (make k) now1 now2 other files).sink 0) 96 416 ∧
      field (headerAt (writeFile bufWriter [] (make k) f).sink 0) 0 64 =
        field (headerAt (writeFile bufWriter [] (make k) { f with Name := other }).sink 0) 0 64 ∧
      field (headerAt (writeFile bufWriter [] (make k) f).sink 0) 96 416 =
        field (headerAt (writeFile bufWriter [] (make k) { f with Name := other }).sink 0)
          96 416 := by
  have ht : ∀ l : List Byte, l.take (min l.length 32) = l.take 32 := by
    intro l
    rw [← List.take_take, List.take_of_length_le (by simp)]
  simp only [BuildPSU_header0, writeFile_header, encodeHeader_name, encodeHeader_before_name,
    encodeHeader_reserved416, ht]
  refine ⟨copyName_zero_bytes name, copyName_zero_bytes f.Name, rfl, trivial, rfl, trivial⟩

theorem dotHeader_rootHeader (now1 now2 : Time) (rootDirName : List Byte) (files : List File) :
    dotHeader (rootHeader now1 now2 rootDirName files) =
      { Typ := PSUType_Directory
        Size := 0
        Created := newPSUTimestamp now1
        Modified := newPSUTimestamp now2
        Name := copyName Name32.zero [46] } := rfl

theorem dotDotHeader_rootHeader (now1 now2 : Time) (rootDirName : List Byte)
    (files : List File) :
    dotDotHeader (dotHeader (rootHeader now1 now2 rootDirName files)) =
      { Typ := PSUType_Directory
        Size := 0
        Created := newPSUTimestamp now1
        Modified := newPSUTimestamp now2
        Name := copyName (copyName Name32.zero [46]) [46, 46] } := rfl

/-- C6: the first header `BuildPSU` emits has type tag Directory (0x8427) and, when
`N + 3` fits in 32 bits, size field `N + 3` for a list of `N` files. -/
theorem root_header_size_is_count_plus_three (k : Nat) (now1 now2 : Time)
    (rootDirName : List Byte) (files : List File) (h : files.length + 3 < 2 ^ 32) :
    getUint16 (field (headerAt (BuildPSU bufWriter [] (make k) now1 now2 rootDirName
        files).sink 0) 0 2) = 0x8427 ∧
      getUint32 (field (headerAt (BuildPSU bufWriter [] (make k) now1 now2 rootDirName
        files).sink 0) 4 4) = files.length + 3 := by
  rw [BuildPSU_header0, encodeHeader_typ, encodeHeader_size, getUint16_putUint16,
    getUint32_putUint32]
  refine ⟨rfl, ?_⟩
  show uint32 (3 + files.length) % 4294967296 = files.length + 3
  unfold uint32
  omega

/-- C6 witness: no file gives size 3 and five files give size 8. -/
theorem root_header_size_witness :
    getUint32 (field (headerAt (BuildPSU bufWriter [] (make 0) ⟨0, 0⟩ ⟨0, 0⟩ [65, 66]
        []).sink 0) 4 4) = 3 ∧
      getUint32 (field (headerAt (BuildPSU bufWriter [] (make 0) ⟨0, 0⟩ ⟨0, 0⟩ [65, 66]
        (List.replicate 5 file0)).sink 0) 4 4) = 8 :=
  ⟨(root_header_size_is_count_plus_three 0 ⟨0, 0⟩ ⟨0, 0⟩ [65, 66] [] (by decide)).2,
    (root_header_size_is_count_plus_three 0 ⟨0, 0⟩ ⟨0, 0⟩ [65, 66] (List.replicate 5 file0)
      (by decide)).2⟩

/-- C7: the second and third headers `BuildPSU` emits have type tag Directory,
size 0 and name fields `"."` plus 31 zero bytes and `".."` plus 30 zero bytes; both
headers are the same for any other root name and any other list of files. -/
theorem dot_and_dotdot_headers (k : Nat) (now1 now2 : Time) (rootDirName other : List Byte)
    (files others : List File) :
    getUint16 (field (headerAt (BuildPSU bufWriter [] (make k) now1 now2 rootDirName
        files).sink 1) 0 2) = 0x8427 ∧
      getUint32 (field (headerAt (BuildPSU bufWriter [] (make k) now1 now2 rootDirName
        files).sink 1) 4 4) = 0 ∧
      field (headerAt (BuildPSU bufWriter [] (make k) now1 now2 rootDirName files).sink 1)
        64 32 = 46 :: List.replicate 31 0 ∧
      getUint16 (field (headerAt (BuildPSU bufWriter [] (make k) now1 now2 rootDirName
        files).sink 2) 0 2) = 0x8427 ∧
      getUint32 (field (headerAt (BuildPSU bufWriter [] (make k) now1 now2 rootDirName
        files).sink 2) 4 4) = 0 ∧
      field (headerAt (BuildPSU bufWriter [] (make k) now1 now2 rootDirName files).sink 2)
        64 32 = 46 :: 46 :: List.replicate 30 0 ∧
      headerAt (BuildPSU bufWriter [] (make k) now1 now2 rootDirName files).sink 1 =
        headerAt (BuildPSU bufWriter [] (make k) now1 now2 other others).sink 1 ∧
      headerAt (BuildPSU bufWriter [] (make k) now1 now2 rootDirName files).sink 2 =
        headerAt (BuildPSU bufWriter [] (make k) now1 now2 other others).sink 2 := by
  simp only [BuildPSU_header1, BuildPSU_header2, dotHeader_rootHeader,
    dotDotHeader_rootHeader, encodeHeader_typ, encodeHeader_size, encodeHeader_name,
    getUint16_putUint16, getUint32_putUint32]
  exact ⟨rfl, trivial, rfl, rfl, rfl, rfl, trivial, trivial⟩

theorem headers_length (a b c : PSUHeader) :
    (encodeHeader a ++ encodeHeader b ++ encodeHeader c).length = 1536 := by
  simp only [List.length_append, encodeHeader_length]

theorem BuildPSU_file_section (k : Nat) (now1 now2 : Time) (rootDirName : List Byte)
    (files : List File) :
    (BuildPSU bufWriter [] (make k) now1 now2 rootDirName files).sink.drop 1536 =
      files.flatMap fileBlock := by
  rw [BuildPSU_buf_sink]
  exact List.drop_left' (headers_length _ _ _)

theorem fileBlock_eq_writeFile (f : File) :
    fileBlock f = (writeFile bufWriter [] (make 0) f).sink := by
  rw [writeFile_buf_sink, fileBlock]

/-- C8: on a sink that accepts every write, `BuildPSU` returns `nil` and appends to
the sink exactly the root header, the `"."` header, the `".."` header (1536 bytes)
and then, in input order, the block `writeFile` emits for each file (file header,
payload, padding); the file section of `fs1 ++ fs2` is that of `fs1` followed by
that of `fs2`, and a file given twice yields its block twice. -/
theorem output_is_headers_then_file_blocks (s : List Byte) (k : Nat) (now1 now2 : Time)
    (rootDirName : List Byte) (files fs1 fs2 : List File) (f : File) :
    (BuildPSU bufWriter s (make k) now1 now2 rootDirName files).sink =
        s ++ encodeHeader (rootHeader now1 now2 rootDirName files) ++
          encodeHeader (dotHeader (rootHeader now1 now2 rootDirName files)) ++
          encodeHeader (dotDotHeader (dotHeader (rootHeader now1 now2 rootDirName files))) ++
          files.flatMap (fun g => (writeFile bufWriter [] (make 0) g).sink) ∧
      (BuildPSU bufWriter s (make k) now1 now2 rootDirName files).ret = Ret.nil ∧
      (encodeHeader (rootHeader now1 now2 rootDirName files) ++
          encodeHeader (dotHeader (rootHeader now1 now2 rootDirName files)) ++
          encodeHeader (dotDotHeader (dotHeader (rootHeader now1 now2 rootDirName
            files)))).length = 1536 ∧
      (∀ j : Nat, (writeFile bufWriter [] (make j) f).sink =
        encodeHeader (fileHeader f) ++ f.Data ++ List.replicate (padSize f) 0) ∧
      (BuildPSU bufWriter [] (make k) now1 now2 rootDirName (fs1 ++ fs2)).sink.drop 1536 =
        (BuildPSU bufWriter [] (make k) now1 now2 rootDirName fs1).sink.drop 1536 ++
          (BuildPSU bufWriter [] (make k) now1 now2 rootDirName fs2).sink.drop 1536 ∧
      (BuildPSU bufWriter [] (make k) now1 now2 rootDirName [f, f]).sink.drop 1536 =
        (writeFile bufWriter [] (make 0) f).sink ++ (writeFile bufWriter [] (make 0) f).sink := by
  have hfun : (fun g => (writeFile bufWriter [] (make 0) g).sink) = fileBlock :=
    funext fun g => (fileBlock_eq_writeFile g).symm
  refine ⟨?_, ?_, headers_length _ _ _, fun j => writeFile_buf_sink j f, ?_, ?_⟩
  · rw [hfun, BuildPSU_buf]
  · rw [BuildPSU_buf]
  · rw [BuildPSU_file_section, BuildPSU_file_section, BuildPSU_file_section,
      List.flatMap_append]
  · rw [BuildPSU_file_section, ← fileBlock_eq_writeFile]
    simp only [List.flatMap_cons, List.flatMap_nil, List.append_nil]

theorem headerAt_three (h0 h1 h2 h rest : List Byte) (hl0 : h0.length = 512)
    (hl1 : h1.length = 512) (hl2 : h2.length = 512) (hl : h.length = 512) :
    headerAt (h0 ++ h1 ++ h2 ++ h ++ rest) 3 = h := by
  unfold headerAt
  exact field_append _ _ _ _ _ (by rw [List.length_append, List.length_append, hl0, hl1, hl2]) hl

theorem fileHeader_fields (f : File) :
    (fileHeader f).Typ = PSUType_File ∧ (fileHeader f).Size = uint32 f.Data.length ∧
      (fileHeader f).Created = newPSUTimestamp f.Created ∧
      (fileHeader f).Modified = newPSUTimestamp f.Modified ∧
      (fileHeader f).Name = copyName Name32.zero f.Name :=
  ⟨rfl, rfl, rfl, rfl, rfl⟩

/-- C9: for a payload of length `L < 2^32`, the block `writeFile` emits starts with
a 512-byte header with type tag File (0x8497), size field `L`, the timestamps
`newPSUTimestamp` of the record's `Created` and `Modified`, and the clipped name;
bytes `512 .. 512 + L - 1` are the payload. -/
theorem file_block_header_and_payload (k : Nat) (f : File) (h : f.Data.length < 2 ^ 32) :
    (headerAt (writeFile bufWriter [] (make k) f).sink 0).length = 512 ∧
      getUint16 (field (headerAt (writeFile bufWriter [] (make k) f).sink 0) 0 2) = 0x8497 ∧
      getUint32 (field (headerAt (writeFile bufWriter [] (make k) f).sink 0) 4 4) =
        f.Data.length ∧
      field (headerAt (writeFile bufWriter [] (make k) f).sink 0) 8 8 =
        encodeTimestamp (newPSUTimestamp f.Created) ∧
      field (headerAt (writeFile bufWriter [] (make k) f).sink 0) 24 8 =
        encodeTimestamp (newPSUTimestamp f.Modified) ∧
      field (headerAt (writeFile bufWriter [] (make k) f).sink 0) 64 32 =
        f.Name.take (min f.Name.length 32) ++ List.replicate (32 - min f.Name.length 32) 0 ∧
      field (writeFile bufWriter [] (make k) f).sink 512 f.Data.length = f.Data := by
  have ht : f.Name.take (min f.Name.length 32) = f.Name.take 32 := by
    rw [← List.take_take, List.take_of_length_le (by simp)]
  obtain ⟨h1, h2, h3, h4, h5⟩ := fileHeader_fields f
  rw [writeFile_header, encodeHeader_length, encodeHeader_typ, encodeHeader_size,
    encodeHeader_created, encodeHeader_modified, encodeHeader_name, getUint16_putUint16,
    getUint32_putUint32, h1, h2, h3, h4, h5, ht, writeFile_buf_sink]
  refine ⟨rfl, rfl, ?_, rfl, rfl, copyName_zero_bytes f.Name, ?_⟩
  · unfold uint32
    omega
  · exact field_append _ _ _ _ _ (encodeHeader_length _) rfl

/-- C9 witness: the block of a file with a 10-byte payload. -/
theorem file_block_witness :
    getUint32 (field (headerAt (writeFile bufWriter [] (make 0) file10).sink 0) 4 4) = 10 ∧
      field (writeFile bufWriter [] (make 0) file10).sink 512 10 =
        [1, 2, 3, 4, 5, 6, 7, 8, 9, 10] :=
  ⟨(file_block_header_and_payload 0 file10 (by decide)).2.2.1,
    (file_block_header_and_payload 0 file10 (by decide)).2.2.2.2.2.2⟩

theorem BuildPSU_single_sink (k : Nat) (now1 now2 : Time) (rootDirName : List Byte)
    (f : File) :
    (BuildPSU bufWriter [] (make k) now1 now2 rootDirName [f]).sink =
      encodeHeader (rootHeader now1 now2 rootDirName [f]) ++
        encodeHeader (dotHeader (rootHeader now1 now2 rootDirName [f])) ++
        encodeHeader (dotDotHeader (dotHeader (rootHeader now1 now2 rootDirName [f]))) ++
        encodeHeader (fileHeader f) ++ f.Data ++ List.replicate (padSize f) 0 := by
  rw [BuildPSU_buf_sink, List.flatMap_cons, List.flatMap_nil, List.append_nil, fileBlock]
  simp only [List.append_assoc]

/-- C10: encoding the single file `"SAVE.BIN"` with a 10-byte payload, for any root
name, clock readings, file timestamps and zero-filled padding buffer, returns `nil`
and writes exactly 3072 bytes: a Directory header with size 4, Directory headers
with size 0 for `"."` and `".."`, a File header with size 10 and name `"SAVE.BIN"`,
the 10 payload bytes, and 1014 zero bytes. -/
theorem save_bin_scenario (k : Nat) (now1 now2 created modified : Time)
    (rootDirName data : List Byte) (h : data.length = 10) :
    (BuildPSU bufWriter [] (make k) now1 now2 rootDirName
        [⟨saveBin, created, modified, data⟩]).ret = Ret.nil ∧
      (BuildPSU bufWriter [] (make k) now1 now2 rootDirName
        [⟨saveBin, created, modified, data⟩]).sink.length = 3072 ∧
      getUint16 (field (headerAt (BuildPSU bufWriter [] (make k) now1 now2 rootDirName
        [⟨saveBin, created, modified, data⟩]).sink 0) 0 2) = 0x8427 ∧
      getUint32 (field (headerAt (BuildPSU bufWriter [] (make k) now1 now2 rootDirName
        [⟨saveBin, created, modified, data⟩]).sink 0) 4 4) = 4 ∧
      getUint32 (field (headerAt (BuildPSU bufWriter [] (make k) now1 now2 rootDirName
        [⟨saveBin, created, modified, data⟩]).sink 1) 4 4) = 0 ∧
      field (headerAt (BuildPSU bufWriter [] (make k) now1 now2 rootDirName
        [⟨saveBin, created, modified, data⟩]).sink 1) 64 32 = 46 :: List.replicate 31 0 ∧
      getUint32 (field (headerAt (BuildPSU bufWriter [] (make k) now1 now2 rootDirName
        [⟨saveBin, created, modified, data⟩]).sink 2) 4 4) = 0 ∧
      field (headerAt (BuildPSU bufWriter [] (make k) now1 now2 rootDirName
        [⟨saveBin, created, modified, data⟩]).sink 2) 64 32 =
          46 :: 46 :: List.replicate 30 0 ∧
      getUint16 (field (headerAt (BuildPSU bufWriter [] (make k) now1 now2 rootDirName
        [⟨saveBin, created, modified, data⟩]).sink 3) 0 2) = 0x8497 ∧
      getUint32 (field (headerAt (BuildPSU bufWriter [] (make k) now1 now2 rootDirName
        [⟨saveBin, created, modified, data⟩]).sink 3) 4 4) = 10 ∧
      field (headerAt (BuildPSU bufWriter [] (make k) now1 now2 rootDirName
        [⟨saveBin, created, modified, data⟩]).sink 3) 64 32 =
          saveBin ++ List.replicate 24 0 ∧
      field (BuildPSU bufWriter [] (make k) now1 now2 rootDirName
        [⟨saveBin, created, modified, data⟩]).sink 2048 10 = data ∧
      (BuildPSU bufWriter [] (make k) now1 now2 rootDirName
        [⟨saveBin, created, modified, data⟩]).sink.drop 2058 = List.replicate 1014 0 := by
  have hp : padSize ⟨saveBin, created, modified, data⟩ = 1014 := by
    simp only [padSize, h]
  have h3 : headerAt (BuildPSU bufWriter [] (make k) now1 now2 rootDirName
      [⟨saveBin, created, modified, data⟩]).sink 3 =
        encodeHeader (fileHeader ⟨saveBin, created, modified, data⟩) := by
    rw [BuildPSU_single_sink, List.append_assoc]
    exact headerAt_three _ _ _ _ _ (encodeHeader_length _) (encodeHeader_length _)
      (encodeHeader_length _) (encodeHeader_length _)
  have hlen : (encodeHeader (rootHeader now1 now2 rootDirName
      [⟨saveBin, created, modified, data⟩]) ++
        encodeHeader (dotHeader (rootHeader now1 now2 rootDirName
          [⟨saveBin, created, modified, data⟩])) ++
        encodeHeader (dotDotHeader (dotHeader (rootHeader now1 now2 rootDirName
          [⟨saveBin, created, modified, data⟩]))) ++
        encodeHeader (fileHeader ⟨saveBin, created, modified, data⟩)).length = 2048 := by
    simp only [List.length_append, encodeHeader_length]
  refine ⟨?_, ?_, ?_, ?_, ?_, ?_, ?_, ?_, ?_, ?_, ?_, ?_, ?_⟩
  · rw [BuildPSU_buf]
  · rw [BuildPSU_single_sink, hp, List.length_append, List.length_append, hlen, h,
      List.length_replicate]
  · rw [BuildPSU_header0, encodeHeader_typ, getUint16_putUint16]; rfl
  · rw [BuildPSU_header0, encodeHeader_size, getUint32_putUint32]; rfl
  · rw [BuildPSU_header1, encodeHeader_size, getUint32_putUint32]; rfl
  · rw [BuildPSU_header1, encodeHeader_name]; rfl
  · rw [BuildPSU_header2, encodeHeader_size, getUint32_putUint32]; rfl
  · rw [BuildPSU_header2, encodeHeader_name]; rfl
  · rw [h3, encodeHeader_typ, getUint16_putUint16]; rfl
  · rw [h3, encodeHeader_size, getUint32_putUint32]
    show uint32 data.length % 4294967296 = 10
    rw [h]; rfl
  · rw [h3, encodeHeader_name]; rfl
  · rw [BuildPSU_single_sink]
    exact field_append _ _ _ _ _ hlen h
  · rw [BuildPSU_single_sink, hp]
    refine List.drop_left' ?_
    rw [List.length_append, hlen, h]

/-- C10 witness: a concrete run with root name `AB` and payload `1 .. 10`. -/
theorem save_bin_scenario_witness :
    (BuildPSU bufWriter [] (make 0) ⟨0, 0⟩ ⟨0, 0⟩ [65, 66]
        [⟨saveBin, ⟨0, 0⟩, ⟨60, 0⟩, [1, 2, 3, 4, 5, 6, 7, 8, 9, 10]⟩]).sink.length = 3072 ∧
      (BuildPSU bufWriter [] (make 0) ⟨0, 0⟩ ⟨0, 0⟩ [65, 66]
        [⟨saveBin, ⟨0, 0⟩, ⟨60, 0⟩, [1, 2, 3, 4, 5, 6, 7, 8, 9, 10]⟩]).sink.drop 2058 =
          List.replicate 1014 0 :=
  ⟨(save_bin_scenario 0 ⟨0, 0⟩ ⟨0, 0⟩ ⟨0, 0⟩ ⟨60, 0⟩ [65, 66]
      [1, 2, 3, 4, 5, 6, 7, 8, 9, 10] rfl).2.1,
    (save_bin_scenario 0 ⟨0, 0⟩ ⟨0, 0⟩ ⟨0, 0⟩ ⟨60, 0⟩ [65, 66]
      [1, 2, 3, 4, 5, 6, 7, 8, 9, 10] rfl).2.2.2.2.2.2.2.2.2.2.2.2⟩

theorem writeAll_append {σ ε : Type} (b : Writer σ ε) (ws1 ws2 : List (List Byte)) (s : σ) :
    writeAll b s (ws1 ++ ws2) =
      match writeAll b s ws1 with
      | (s1, some err) => (s1, some err)
      | (s1, none) => writeAll b s1 ws2 := by
  induction ws1 generalizing s with
  | nil => simp [writeAll]
  | cons w ws ih =>
    rcases h : b.Write s w with ⟨s1, _ | e⟩
    · simp only [List.cons_append, writeAll, h]
      exact ih s1
    · simp only [List.cons_append, writeAll, h]

theorem fileWrites_eq (f : File) :
    fileWrites f = [encodeHeader (fileHeader f), f.Data, make (padSize f)] := rfl

theorem writeFile_writeAll {σ ε : Type} (b : Writer σ ε) (s : σ) (n : Nat) (f : File) :
    (writeFile b s (make n) f).sink = (writeAll b s (fileWrites f)).1 ∧
      (writeFile b s (make n) f).ret = toRet (writeAll b s (fileWrites f)).2 ∧
      ∃ m, (writeFile b s (make n) f).padding = make m := by
  have hg := growPadding_make n f
  unfold growPadding at hg
  have hs := sliceTo_make _ _ (le_max_right n (padSize f))
  rw [fileWrites_eq]
  rcases h1 : b.Write s (encodeHeader (fileHeader f)) with ⟨s1, _ | e1⟩
  · rcases h2 : b.Write s1 f.Data with ⟨s2, _ | e2⟩
    · rcases h3 : b.Write s2 (make (padSize f)) with ⟨s3, _ | e3⟩
      · simp only [writeFile, binaryWrite, h1, h2, hg, hs, h3, writeAll, toRet]
        exact ⟨trivial, trivial, _, rfl⟩
      · simp only [writeFile, binaryWrite, h1, h2, hg, hs, h3, writeAll, toRet]
        exact ⟨trivial, trivial, _, rfl⟩
    · simp only [writeFile, binaryWrite, h1, h2, hg, writeAll, toRet]
      exact ⟨trivial, trivial, _, rfl⟩
  · simp only [writeFile, binaryWrite, h1, writeAll, toRet]
    exact ⟨trivial, trivial, _, rfl⟩

theorem writeFiles_writeAll {σ ε : Type} (b : Writer σ ε) (fs : List File) (s : σ) (n : Nat) :
    (writeFiles b s (make n) fs).sink = (writeAll b s (fs.flatMap fileWrites)).1 ∧
      (writeFiles b s (make n) fs).ret = toRet (writeAll b s (fs.flatMap fileWrites)).2 ∧
      ∃ m, (writeFiles b s (make n) fs).padding = make m := by
  induction fs generalizing s n with
  | nil => exact ⟨rfl, rfl, n, rfl⟩
  | cons f fs ih =>
    obtain ⟨h1, h2, m, h3⟩ := writeFile_writeAll b s n f
    rw [List.flatMap_cons, writeAll_append]
    generalize hr : writeFile b s (make n) f = r at h1 h2 h3
    obtain ⟨rs, rp, rr⟩ := r
    simp only at h1 h2 h3
    rcases hw : writeAll b s (fileWrites f) with ⟨s1, _ | e⟩
    · rw [hw] at h1 h2
      simp only [toRet] at h1 h2
      subst h1 h2 h3
      simp only [writeFiles, hr]
      exact ih rs m
    · rw [hw] at h1 h2
      simp only [toRet] at h1 h2
      subst h1 h2 h3
      simp only [writeFiles, hr, toRet]
      exact ⟨trivial, trivial, m, rfl⟩

theorem BuildPSU_writeAll {σ ε : Type} (b : Writer σ ε) (s : σ) (n : Nat) (now1 now2 : Time)
    (rootDirName : List Byte) (files : List File) :
    (BuildPSU b s (make n) now1 now2 rootDirName files).sink =
        (writeAll b s (allWrites now1 now2 rootDirName files)).1 ∧
      (BuildPSU b s (make n) now1 now2 rootDirName files).ret =
        toRet (writeAll b s (allWrites now1 now2 rootDirName files)).2 ∧
      ∃ m, (BuildPSU b s (make n) now1 now2 rootDirName files).padding = make m := by
  unfold allWrites
  rcases h1 : b.Write s (encodeHeader (rootHeader now1 now2 rootDirName files))
    with ⟨s1, _ | e1⟩
  · rcases h2 : b.Write s1 (encodeHeader (dotHeader (rootHeader now1 now2 rootDirName files)))
      with ⟨s2, _ | e2⟩
    · rcases h3 : b.Write s2
        (encodeHeader (dotDotHeader (dotHeader (rootHeader now1 now2 rootDirName files))))
        with ⟨s3, _ | e3⟩
      · simp only [BuildPSU, binaryWrite, h1, h2, h3, List.cons_append, List.nil_append,
          writeAll]
        exact writeFiles_writeAll b files s3 n
      · simp only [BuildPSU, binaryWrite, h1, h2, h3, List.cons_append, writeAll, toRet]
        exact ⟨trivial, trivial, n, rfl⟩
    · simp only [BuildPSU, binaryWrite, h1, h2, List.cons_append, writeAll, toRet]
      exact ⟨trivial, trivial, n, rfl⟩
  · simp only [BuildPSU, binaryWrite, h1, List.cons_append, writeAll, toRet]
    exact ⟨trivial, trivial, n, rfl⟩

theorem allWrites_length (now1 now2 : Time) (rootDirName : List Byte) (files : List File) :
    (allWrites now1 now2 rootDirName files).length = 3 + 3 * files.length := by
  have h : ∀ fs : List File, (fs.flatMap fileWrites).length = 3 * fs.length := by
    intro fs
    induction fs with
    | nil => rfl
    | cons f fs ih =>
      rw [List.flatMap_cons, List.length_append, ih, List.length_cons]
      simp only [fileWrites, List.length_cons, List.length_nil]
      omega
  rw [allWrites, List.length_append, h]
  rfl

theorem writeAll_plan_ok {ε : Type} (plan : Nat → Option ε) (ws : List (List Byte))
    (s : List (List Byte))
    (h : ∀ i, s.length < i → i ≤ s.length + ws.length → plan i = none) :
    writeAll (planWriter plan) s ws = (s ++ ws, none) := by
  induction ws generalizing s with
  | nil => simp [writeAll]
  | cons w ws ih =>
    have h0 : plan (s.length + 1) = none :=
      h _ (by omega) (by simp only [List.length_cons]; omega)
    have hrec := ih (s ++ [w]) (fun i hi1 hi2 => h i
      (by simp only [List.length_append, List.length_cons, List.length_nil] at hi1; omega)
      (by simp only [List.length_append, List.length_cons, List.length_nil] at hi2 ⊢; omega))
    simp only [writeAll, planWriter, h0]
    simp only [planWriter] at hrec
    rw [hrec, List.append_assoc]
    rfl

theorem writeAll_plan_fail {ε : Type} (plan : Nat → Option ε) (K : Nat) (e : ε)
    (ws : List (List Byte)) (s : List (List Byte)) (hlo : s.length < K)
    (hhi : K ≤ s.length + ws.length)
    (hbefore : ∀ i, s.length < i → i < K → plan i = none) (hK : plan K = some e) :
    writeAll (planWriter plan) s ws = (s ++ ws.take (K - s.length), some e) := by
  induction ws generalizing s with
  | nil => simp only [List.length_nil] at hhi; omega
  | cons w ws ih =>
    by_cases hk : K = s.length + 1
    · have h0 : plan (s.length + 1) = some e := hk ▸ hK
      have h1 : K - s.length = 1 := by omega
      simp only [writeAll, planWriter, h0, h1, List.take_succ_cons, List.take_zero]
    · have h0 : plan (s.length + 1) = none := hbefore _ (by omega) (by omega)
      have hl : (s ++ [w]).length = s.length + 1 := by
        simp only [List.length_append, List.length_cons, List.length_nil]
      have hrec := ih (s ++ [w]) (by rw [hl]; omega)
        (by rw [hl]; simp only [List.length_cons] at hhi; omega)
        (fun i hi1 hi2 => hbefore i (by rw [hl] at hi1; omega) hi2)
      have h1 : K - s.length = (K - (s.length + 1)) + 1 := by omega
      simp only [writeAll, planWriter, h0]
      simp only [planWriter, hl] at hrec
      rw [hrec, h1, List.take_succ_cons, List.append_assoc]
      rfl

/-- C11: when the `K`-th write call of the sink (`1 ≤ K`, at most the `3 + 3 N`
calls of a full run) is the first to fail, with error `e`, `BuildPSU` returns `e`
and the sink has received exactly the first `K` writes of the sequence "three
directory headers, then header, payload and padding of each file". -/
theorem first_failing_write_is_returned {ε : Type} (plan : Nat → Option ε) (K : Nat) (e : ε)
    (n : Nat) (now1 now2 : Time) (rootDirName : List Byte) (files : List File)
    (h1 : 1 ≤ K) (hK : K ≤ 3 + 3 * files.length)
    (hbefore : ∀ i, 1 ≤ i → i < K → plan i = none) (hfail : plan K = some e) :
    (BuildPSU (planWriter plan) [] (make n) now1 now2 rootDirName files).ret = Ret.error e ∧
      (BuildPSU (planWriter plan) [] (make n) now1 now2 rootDirName files).sink.length = K ∧
      (BuildPSU (planWriter plan) [] (make n) now1 now2 rootDirName files).sink =
        (allWrites now1 now2 rootDirName files).take K ∧
      allWrites now1 now2 rootDirName files =
        [encodeHeader (rootHeader now1 now2 rootDirName files),
          encodeHeader (dotHeader (rootHeader now1 now2 rootDirName files)),
          encodeHeader (dotDotHeader (dotHeader (rootHeader now1 now2 rootDirName files)))] ++
        files.flatMap (fun f =>
          [encodeHeader (fileHeader f), f.Data, List.replicate (padSize f) 0]) := by
  obtain ⟨hs, hr, -⟩ := BuildPSU_writeAll (planWriter plan) [] n now1 now2 rootDirName files
  have hw := writeAll_plan_fail plan K e (allWrites now1 now2 rootDirName files) []
    (by simpa using h1) (by rw [allWrites_length]; simpa using hK)
    (fun i hi1 hi2 => hbefore i (by simpa using hi1) hi2) hfail
  rw [hw] at hs hr
  simp only [List.length_nil, Nat.sub_zero, List.nil_append] at hs hr
  refine ⟨hr, ?_, hs, rfl⟩
  rw [hs, List.length_take, allWrites_length]
  omega

/-- C11 witness: one file, the fifth write (the payload) fails with error `7`. -/
theorem first_failing_write_witness :
    (BuildPSU (planWriter failFifth) [] (make 0) ⟨0, 0⟩ ⟨0, 0⟩ [65, 66] [file10]).ret =
        Ret.error 7 ∧
      (BuildPSU (planWriter failFifth) [] (make 0) ⟨0, 0⟩ ⟨0, 0⟩ [65, 66]
        [file10]).sink.length = 5 :=
  ⟨(first_failing_write_is_returned failFifth 5 7 0 ⟨0, 0⟩ ⟨0, 0⟩ [65, 66] [file10]
      (by decide) (by decide) (fun i _ hi => by simp only [failFifth]; rw [if_neg]; omega)
      rfl).1,
    (first_failing_write_is_returned failFifth 5 7 0 ⟨0, 0⟩ ⟨0, 0⟩ [65, 66] [file10]
      (by decide) (by decide) (fun i _ hi => by simp only [failFifth]; rw [if_neg]; omega)
      rfl).2.1⟩

theorem writeAll_accepting {σ ε : Type} (b : Writer σ ε)
    (hacc : ∀ t bs, (b.Write t bs).2 = none) (ws : List (List Byte)) (s : σ) :
    (writeAll b s ws).2 = none := by
  induction ws generalizing s with
  | nil => rfl
  | cons w ws ih =>
    have h := hacc s w
    rcases hw : b.Write s w with ⟨s1, _ | e⟩
    · simp only [writeAll, hw]
      exact ih s1
    · rw [hw] at h
      exact absurd h (by simp)

theorem BuildPSU_empty_sink (n : Nat) (now1 now2 : Time) (rootDirName : List Byte) :
    (BuildPSU bufWriter [] (make n) now1 now2 rootDirName []).sink =
      encodeHeader (rootHeader now1 now2 rootDirName []) ++
        encodeHeader (dotHeader (rootHeader now1 now2 rootDirName [])) ++
        encodeHeader (dotDotHeader (dotHeader (rootHeader now1 now2 rootDirName []))) := by
  rw [BuildPSU_buf_sink, List.flatMap_nil, List.append_nil]

/-- C12: `BuildPSU` returns an error exactly when a write of its sequence fails,
and then that error; it never panics; on a sink that accepts every write it returns
`nil` for every root name, file list and clock reading; with an empty file list it
writes exactly the three headers (1536 bytes), the root size field being 3. -/
theorem error_iff_some_write_fails {σ ε : Type} (b : Writer σ ε) (s : σ) (n : Nat)
    (now1 now2 : Time) (rootDirName : List Byte) (files : List File) :
    (BuildPSU b s (make n) now1 now2 rootDirName files).ret =
        toRet (writeAll b s (allWrites now1 now2 rootDirName files)).2 ∧
      ((∃ e, (BuildPSU b s (make n) now1 now2 rootDirName files).ret = Ret.error e) ↔
        ∃ e, (writeAll b s (allWrites now1 now2 rootDirName files)).2 = some e) ∧
      ((∀ t bs, (b.Write t bs).2 = none) →
        (BuildPSU b s (make n) now1 now2 rootDirName files).ret = Ret.nil) ∧
      (BuildPSU bufWriter [] (make n) now1 now2 rootDirName files).ret = Ret.nil ∧
      (BuildPSU bufWriter [] (make n) now1 now2 rootDirName []).ret = Ret.nil ∧
      (BuildPSU bufWriter [] (make n) now1 now2 rootDirName []).sink =
        encodeHeader (rootHeader now1 now2 rootDirName []) ++
          encodeHeader (dotHeader (rootHeader now1 now2 rootDirName [])) ++
          encodeHeader (dotDotHeader (dotHeader (rootHeader now1 now2 rootDirName []))) ∧
      (BuildPSU bufWriter [] (make n) now1 now2 rootDirName []).sink.length = 1536 ∧
      getUint32 (field (headerAt (BuildPSU bufWriter [] (make n) now1 now2 rootDirName
        []).sink 0) 4 4) = 3 := by
  obtain ⟨-, hr, -⟩ := BuildPSU_writeAll b s n now1 now2 rootDirName files
  refine ⟨hr, ?_, ?_, ?_, ?_, BuildPSU_empty_sink n now1 now2 rootDirName, ?_, ?_⟩
  · rw [hr]
    rcases (writeAll b s (allWrites now1 now2 rootDirName files)).2 with _ | e
    · simp [toRet]
    · simp [toRet]
  · intro hacc
    rw [hr, writeAll_accepting b hacc]
    rfl
  · rw [BuildPSU_buf]
  · rw [BuildPSU_buf]
  · rw [BuildPSU_empty_sink]
    exact headers_length _ _ _
  · rw [BuildPSU_header0, encodeHeader_size, getUint32_putUint32]
    rfl

/-- C12 witness: the recording sink accepts every write, so a run with a 40-byte
root name and a file with an empty payload returns `nil`. -/
theorem error_iff_some_write_fails_witness :
    (BuildPSU recWriter [] (make 0) ⟨0, 0⟩ ⟨0, 0⟩ (List.replicate 40 65) [file0]).ret =
      Ret.nil :=
  (error_iff_some_write_fails recWriter [] 0 ⟨0, 0⟩ ⟨0, 0⟩ (List.replicate 40 65)
    [file0]).2.2.1 (fun _ _ => rfl)

theorem encodeHeader_head8 (p : PSUHeader) :
    field (encodeHeader p) 0 8 = putUint16 p.Typ ++ skip 2 ++ putUint32 p.Size := by
  have h : encodeHeader p = (putUint16 p.Typ ++ skip 2 ++ putUint32 p.Size) ++
      (encodeTimestamp p.Created ++ skip 8 ++ encodeTimestamp p.Modified ++ skip 32 ++
      p.Name.bytes ++ skip 416) := by
    simp only [encodeHeader, List.append_assoc]
  rw [h]
  exact field_zero _ _ _ rfl

theorem encodeHeader_tail480 (p : PSUHeader) :
    field (encodeHeader p) 32 480 = skip 32 ++ p.Name.bytes ++ skip 416 := by
  have h : encodeHeader p = (putUint16 p.Typ ++ skip 2 ++ putUint32 p.Size ++
      encodeTimestamp p.Created ++ skip 8 ++ encodeTimestamp p.Modified) ++
      (skip 32 ++ p.Name.bytes ++ skip 416) ++ [] := by
    simp only [encodeHeader, List.append_assoc, List.append_nil]
  rw [h]
  refine field_append _ _ _ _ _ rfl ?_
  simp only [List.length_append, skip, List.length_replicate, p.Name.len]

theorem encodeHeader_head4 (p : PSUHeader) :
    field (encodeHeader p) 0 4 = putUint16 p.Typ ++ skip 2 := by
  have h : encodeHeader p = (putUint16 p.Typ ++ skip 2) ++ (putUint32 p.Size ++
      encodeTimestamp p.Created ++ skip 8 ++ encodeTimestamp p.Modified ++ skip 32 ++
      p.Name.bytes ++ skip 416) := by
    simp only [encodeHeader, List.append_assoc]
  rw [h]
  exact field_zero _ _ _ rfl

theorem encodeHeader_mid56 (p : PSUHeader) :
    field (encodeHeader p) 8 56 =
      encodeTimestamp p.Created ++ skip 8 ++ encodeTimestamp p.Modified ++ skip 32 := by
  have h : encodeHeader p = (putUint16 p.Typ ++ skip 2 ++ putUint32 p.Size) ++
      (encodeTimestamp p.Created ++ skip 8 ++ encodeTimestamp p.Modified ++ skip 32) ++
      (p.Name.bytes ++ skip 416) := by
    simp only [encodeHeader, List.append_assoc]
  rw [h]
  exact field_append _ _ _ _ _ rfl rfl

theorem BuildPSU_buf_length (k : Nat) (now1 now2 : Time) (rootDirName : List Byte)
    (files : List File) :
    (BuildPSU bufWriter [] (make k) now1 now2 rootDirName files).sink.length =
      1536 + (files.flatMap fileBlock).length := by
  rw [BuildPSU_buf_sink, List.length_append, headers_length]

theorem runs_agree_outside_timestamps (k1 k2 : Nat) (a1 a2 b1 b2 : Time)
    (rootDirName : List Byte) (files : List File) :
    (BuildPSU bufWriter [] (make k1) a1 a2 rootDirName files).sink.length =
        (BuildPSU bufWriter [] (make k2) b1 b2 rootDirName files).sink.length ∧
      outsideTimestamps (headerAt (BuildPSU bufWriter [] (make k1) a1 a2 rootDirName
          files).sink 0) =
        outsideTimestamps (headerAt (BuildPSU bufWriter [] (make k2) b1 b2 rootDirName
          files).sink 0) ∧
      outsideTimestamps (headerAt (BuildPSU bufWriter [] (make k1) a1 a2 rootDirName
          files).sink 1) =
        outsideTimestamps (headerAt (BuildPSU bufWriter [] (make k2) b1 b2 rootDirName
          files).sink 1) ∧
      outsideTimestamps (headerAt (BuildPSU bufWriter [] (make k1) a1 a2 rootDirName
          files).sink 2) =
        outsideTimestamps (headerAt (BuildPSU bufWriter [] (make k2) b1 b2 rootDirName
          files).sink 2) ∧
      (BuildPSU bufWriter [] (make k1) a1 a2 rootDirName files).sink.drop 1536 =
        (BuildPSU bufWriter [] (make k2) b1 b2 rootDirName files).sink.drop 1536 := by
  refine ⟨?_, ?_, ?_, ?_, ?_⟩
  · rw [BuildPSU_buf_length, BuildPSU_buf_length]
  · simp only [outsideTimestamps, BuildPSU_header0, encodeHeader_head8,
      encodeHeader_reserved8, encodeHeader_tail480]
    rfl
  · simp only [outsideTimestamps, BuildPSU_header1, encodeHeader_head8,
      encodeHeader_reserved8, encodeHeader_tail480]
    rfl
  · simp only [outsideTimestamps, BuildPSU_header2, encodeHeader_head8,
      encodeHeader_reserved8, encodeHeader_tail480]
    rfl
  · rw [BuildPSU_file_section, BuildPSU_file_section]

/-- C15: the three leading headers `BuildPSU` emits are identical outside the size
field (offsets 4..7) and the name field (offsets 64..95); in particular the `"."`
and `".."` headers carry the created and modified timestamp bytes of the root
header, which are those of the two clock readings. -/
theorem leading_headers_agree_outside_size_and_name (k : Nat) (now1 now2 : Time)
    (rootDirName : List Byte) (files : List File) :
    outsideSizeAndName (headerAt (BuildPSU bufWriter [] (make k) now1 now2 rootDirName
          files).sink 1) =
        outsideSizeAndName (headerAt (BuildPSU bufWriter [] (make k) now1 now2 rootDirName
          files).sink 0) ∧
      outsideSizeAndName (headerAt (BuildPSU bufWriter [] (make k) now1 now2 rootDirName
          files).sink 2) =
        outsideSizeAndName (headerAt (BuildPSU bufWriter [] (make k) now1 now2 rootDirName
          files).sink 0) ∧
      field (headerAt (BuildPSU bufWriter [] (make k) now1 now2 rootDirName files).sink 0)
        8 8 = encodeTimestamp (newPSUTimestamp now1) ∧
      field (headerAt (BuildPSU bufWriter [] (make k) now1 now2 rootDirName files).sink 1)
        8 8 = encodeTimestamp (newPSUTimestamp now1) ∧
      field (headerAt (BuildPSU bufWriter [] (make k) now1 now2 rootDirName files).sink 2)
        8 8 = encodeTimestamp (newPSUTimestamp now1) ∧
      field (headerAt (BuildPSU bufWriter [] (make k) now1 now2 rootDirName files).sink 0)
        24 8 = encodeTimestamp (newPSUTimestamp now2) ∧
      field (headerAt (BuildPSU bufWriter [] (make k) now1 now2 rootDirName files).sink 1)
        24 8 = encodeTimestamp (newPSUTimestamp now2) ∧
      field (headerAt (BuildPSU bufWriter [] (make k) now1 now2 rootDirName files).sink 2)
        24 8 = encodeTimestamp (newPSUTimestamp now2) := by
  simp only [outsideSizeAndName, BuildPSU_header0, BuildPSU_header1, BuildPSU_header2,
    encodeHeader_head4, encodeHeader_mid56, encodeHeader_reserved416, encodeHeader_created,
    encodeHeader_modified]
  exact ⟨rfl, rfl, rfl, rfl, rfl, rfl, rfl, rfl⟩

theorem Time.dayOfEra_bounds (t : Time) : 0 ≤ t.dayOfEra ∧ t.dayOfEra ≤ 146096 := by
  unfold Time.dayOfEra
  omega

theorem Time.yearOfEra_bounds (t : Time) : 0 ≤ t.yearOfEra ∧ t.yearOfEra ≤ 399 := by
  have h := t.dayOfEra_bounds
  simp only [Time.yearOfEra]
  omega

theorem dayOfYear_arith (a : Int) (h0 : 0 ≤ a) (h1 : a ≤ 146096) :
    0 ≤ a - (365 * ((a - a / 1460 + a / 36524 - a / 146096) / 365) +
      (a - a / 1460 + a / 36524 - a / 146096) / 365 / 4 -
      (a - a / 1460 + a / 36524 - a / 146096) / 365 / 100) ∧
    a - (365 * ((a - a / 1460 + a / 36524 - a / 146096) / 365) +
      (a - a / 1460 + a / 36524 - a / 146096) / 365 / 4 -
      (a - a / 1460 + a / 36524 - a / 146096) / 365 / 100) ≤ 365 := by
  generalize hf : a / 36524 = f
  generalize hg : a / 146096 = g
  generalize he : a / 1460 = e
  generalize hb : (a - e + f - g) / 365 = b
  generalize hd : b / 100 = d
  generalize hc : b / 4 = c
  have hfr : f = 0 ∨ f = 1 ∨ f = 2 ∨ f = 3 ∨ f = 4 := by omega
  have hdr : d = 0 ∨ d = 1 ∨ d = 2 ∨ d = 3 ∨ d = 4 := by omega
  rcases hfr with h | h | h | h | h <;> rcases hdr with h' | h' | h' | h' | h' <;>
    subst h <;> subst h' <;> omega

theorem Time.dayOfYearMar_bounds (t : Time) : 0 ≤ t.dayOfYearMar ∧ t.dayOfYearMar ≤ 365 := by
  have h := t.dayOfEra_bounds
  simp only [Time.dayOfYearMar, Time.yearOfEra]
  exact dayOfYear_arith _ h.1 h.2

theorem Time.monthMar_bounds (t : Time) : 0 ≤ t.monthMar ∧ t.monthMar ≤ 11 := by
  have h := t.dayOfYearMar_bounds
  simp only [Time.monthMar]
  omega

theorem Time.Day_bounds (t : Time) : 1 ≤ t.Day ∧ t.Day ≤ 31 := by
  have h := t.dayOfYearMar_bounds
  simp only [Time.Day, Time.monthMar]
  omega

theorem Time.Month_bounds (t : Time) : 1 ≤ t.Month ∧ t.Month ≤ 12 := by
  have h := t.monthMar_bounds
  simp only [Time.Month]
  split <;> omega

theorem Time.clock_bounds (t : Time) :
    0 ≤ t.Second ∧ t.Second ≤ 59 ∧ 0 ≤ t.Minute ∧ t.Minute ≤ 59 ∧ 0 ≤ t.Hour ∧
      t.Hour ≤ 23 := by
  simp only [Time.Second, Time.Minute, Time.Hour]
  omega

theorem Time.clock_roundtrip (t : Time) :
    t.days * 86400 + t.Hour * 3600 + t.Minute * 60 + t.Second =
      t.abs - Time.unixToAbsolute := by
  simp only [Time.Second, Time.Minute, Time.Hour, Time.days, Time.absoluteDays,
    Time.unixToAbsolute]
  omega

theorem Time.abs_UTC_exact (t : Time) (h0 : -9223372028715321600 ≤ t.unix)
    (h1 : t.unix ≤ 9223372036854775807) : t.UTC.abs - Time.unixToAbsolute = t.unix := by
  simp only [Time.abs, Time.UTC, Time.unixToAbsolute]
  omega

/-- At `time.Unix(math.MinInt64, 0)`, before the absolute zero, the accessors
work on the wrapped counter. -/
theorem newPSUTimestamp_before_absolute_zero :
    newPSUTimestamp ⟨-9223372036854775808, 0⟩ = ⟨0, 8, 30, 15, 4, 12, 32548⟩ := by
  decide

theorem civil_arith (ds yoe doy mp doe : Int) (hdoe : doe = (ds + 719468) % 146097)
    (hy : 0 ≤ yoe ∧ yoe ≤ 399) (hm : 0 ≤ mp ∧ mp ≤ 11)
    (hdoy : doy = doe - (365 * yoe + yoe / 4 - yoe / 100)) :
    daysFromCivil
      (yoe + (ds + 719468) / 146097 * 400 +
        (if (if mp < 10 then mp + 3 else mp - 9) ≤ 2 then 1 else 0))
      (if mp < 10 then mp + 3 else mp - 9) (doy - (153 * mp + 2) / 5 + 1) = ds := by
  by_cases hmp : mp < 10
  · have h1 : ¬ (mp + 3 ≤ 2) := by omega
    have h2 : mp + 3 > 2 := by omega
    simp only [daysFromCivil, hmp, if_true, h1, if_false, h2]
    omega
  · have h1 : mp - 9 ≤ 2 := by omega
    have h2 : ¬ (mp - 9 > 2) := by omega
    simp only [daysFromCivil, hmp, if_false, h1, if_true, h2]
    omega

theorem Time.date_roundtrip (t : Time) : daysFromCivil t.Year t.Month t.Day = t.days := by
  simp only [Time.Year, Time.Month, Time.Day]
  exact civil_arith t.days t.yearOfEra t.dayOfYearMar t.monthMar t.dayOfEra rfl
    t.yearOfEra_bounds t.monthMar_bounds rfl

theorem uint8_exact (x : Int) (h0 : 0 ≤ x) (h1 : x ≤ 255) : (uint8 x : Int) = x := by
  unfold uint8
  omega

theorem uint16_mod (x : Int) : (uint16 x : Int) = x % 65536 := by
  unfold uint16
  omega

/-- C14: `newPSUTimestamp t` has `Zero = 0`; its seconds, minutes, hours, day and
month are exactly (no truncation) those of `t` in UTC, within 0..59, 0..59, 0..23,
1..31 and 1..12; its year is the UTC year modulo `2^16`, the exact year when that
lies in 0..65535; the result does not depend on the zone of `t`; and for every
instant from the absolute zero of the `time` package on, the UTC fields give back
the Unix time of the instant. -/
theorem timestamp_fields_are_utc_fields (t : Time) :
    (newPSUTimestamp t).Zero = 0 ∧
      ((newPSUTimestamp t).Seconds : Int) = t.UTC.Second ∧ (newPSUTimestamp t).Seconds ≤ 59 ∧
      ((newPSUTimestamp t).Minutes : Int) = t.UTC.Minute ∧ (newPSUTimestamp t).Minutes ≤ 59 ∧
      ((newPSUTimestamp t).Hours : Int) = t.UTC.Hour ∧ (newPSUTimestamp t).Hours ≤ 23 ∧
      ((newPSUTimestamp t).Day : Int) = t.UTC.Day ∧ 1 ≤ (newPSUTimestamp t).Day ∧
      (newPSUTimestamp t).Day ≤ 31 ∧
      ((newPSUTimestamp t).Month : Int) = t.UTC.Month ∧ 1 ≤ (newPSUTimestamp t).Month ∧
      (newPSUTimestamp t).Month ≤ 12 ∧
      ((newPSUTimestamp t).Year : Int) = t.UTC.Year % 65536 ∧
      (0 ≤ t.UTC.Year ∧ t.UTC.Year ≤ 65535 → ((newPSUTimestamp t).Year : Int) = t.UTC.Year) ∧
      (∀ off : Int, newPSUTimestamp ⟨t.unix, off⟩ = newPSUTimestamp t) ∧
      (-9223372028715321600 ≤ t.unix ∧ t.unix ≤ 9223372036854775807 →
        daysFromCivil t.UTC.Year t.UTC.Month t.UTC.Day * 86400 + t.UTC.Hour * 3600 +
          t.UTC.Minute * 60 + t.UTC.Second = t.unix) := by
  obtain ⟨hs0, hs1, hm0, hm1, hh0, hh1⟩ := t.UTC.clock_bounds
  obtain ⟨hd0, hd1⟩ := t.UTC.Day_bounds
  obtain ⟨hmo0, hmo1⟩ := t.UTC.Month_bounds
  have es := uint8_exact t.UTC.Second hs0 (by omega)
  have em := uint8_exact t.UTC.Minute hm0 (by omega)
  have eh := uint8_exact t.UTC.Hour hh0 (by omega)
  have ed := uint8_exact t.UTC.Day (by omega) (by omega)
  have emo := uint8_exact t.UTC.Month (by omega) (by omega)
  have ey := uint16_mod t.UTC.Year
  have hr := t.UTC.clock_roundtrip
  rw [← t.UTC.date_roundtrip] at hr
  simp only [newPSUTimestamp]
  refine ⟨trivial, es, ?_, em, ?_, eh, ?_, ed, ?_, ?_, emo, ?_, ?_, ey, ?_, fun _ => rfl,
    fun h => hr.trans (t.abs_UTC_exact h.1 h.2)⟩
  all_goals omega

/-- C14 witness: the year of 2023-11-14T22:13:20Z, given in a zone one hour
east of UTC, is stored exactly, and the UTC fields give back the Unix time. -/
theorem timestamp_fields_witness :
    ((newPSUTimestamp timeSample).Year : Int) = 2023 ∧
      daysFromCivil timeSample.UTC.Year timeSample.UTC.Month timeSample.UTC.Day * 86400 +
        timeSample.UTC.Hour * 3600 + timeSample.UTC.Minute * 60 + timeSample.UTC.Second =
          1700000000 :=
  ⟨((timestamp_fields_are_utc_fields timeSample).2.2.2.2.2.2.2.2.2.2.2.2.2.2.1
      ⟨by decide, by decide⟩).trans (by decide),
    (timestamp_fields_are_utc_fields timeSample).2.2.2.2.2.2.2.2.2.2.2.2.2.2.2.2
      ⟨by decide, by decide⟩⟩

theorem growPadding_length (padding : List Byte) (f : File) :
    padSize f ≤ (growPadding padding f).length := by
  have h := padSize_pos f
  unfold growPadding
  simp only [gt_iff_lt, h, if_true]
  split
  · simp only [make, List.length_replicate, le_refl]
  · omega

theorem sliceTo_growPadding (padding : List Byte) (f : File) :
    sliceTo (growPadding padding f) (padSize f) =
      some ((growPadding padding f).take (padSize f)) := by
  simp only [sliceTo, growPadding_length padding f, if_true]

theorem writeFile_eq {σ ε : Type} (b : Writer σ ε) (s : σ) (padding : List Byte) (f : File) :
    writeFile b s padding f =
      match b.Write s (encodeHeader (fileHeader f)) with
      | (s1, some err) => ⟨s1, padding, .error err⟩
      | (s1, none) =>
        match b.Write s1 f.Data with
        | (s2, some err) => ⟨s2, growPadding padding f, .error err⟩
        | (s2, none) =>
          match b.Write s2 ((growPadding padding f).take (padSize f)) with
          | (s3, some err) => ⟨s3, growPadding padding f, .error err⟩
          | (s3, none) => ⟨s3, growPadding padding f, .nil⟩ := by
  have hsl := sliceTo_growPadding padding f
  unfold growPadding at hsl
  simp only [writeFile, binaryWrite, growPadding, hsl]

theorem writeFile_no_panic {σ ε : Type} (b : Writer σ ε) (s : σ) (padding : List Byte)
    (f : File) : (writeFile b s padding f).ret ≠ Ret.panic := by
  rw [writeFile_eq]
  rcases h1 : b.Write s (encodeHeader (fileHeader f)) with ⟨s1, _ | e1⟩
  · rcases h2 : b.Write s1 f.Data with ⟨s2, _ | e2⟩
    · rcases h3 : b.Write s2 ((growPadding padding f).take (padSize f)) with ⟨s3, _ | e3⟩
      · simp [h2, h3]
      · simp [h2, h3]
    · simp [h2]
  · simp

theorem writeFiles_no_panic {σ ε : Type} (b : Writer σ ε) (fs : List File) (s : σ)
    (padding : List Byte) : (writeFiles b s padding fs).ret ≠ Ret.panic := by
  induction fs generalizing s padding with
  | nil => simp [writeFiles]
  | cons f fs ih =>
    have h := writeFile_no_panic b s padding f
    generalize hr : writeFile b s padding f = r at h
    obtain ⟨rs, rp, rr⟩ := r
    cases rr with
    | nil => simp only [writeFiles, hr]; exact ih rs rp
    | error e => simp [writeFiles, hr]
    | panic => exact absurd rfl h

theorem BuildPSU_no_panic {σ ε : Type} (b : Writer σ ε) (s : σ) (padding : List Byte)
    (now1 now2 : Time) (rootDirName : List Byte) (files : List File) :
    (BuildPSU b s padding now1 now2 rootDirName files).ret ≠ Ret.panic := by
  rcases h1 : b.Write s (encodeHeader (rootHeader now1 now2 rootDirName files))
    with ⟨s1, _ | e1⟩
  · rcases h2 : b.Write s1 (encodeHeader (dotHeader (rootHeader now1 now2 rootDirName files)))
      with ⟨s2, _ | e2⟩
    · rcases h3 : b.Write s2
        (encodeHeader (dotDotHeader (dotHeader (rootHeader now1 now2 rootDirName files))))
        with ⟨s3, _ | e3⟩
      · simp only [BuildPSU, binaryWrite, h1, h2, h3]
        exact writeFiles_no_panic b files s3 padding
      · simp [BuildPSU, binaryWrite, h1, h2, h3]
    · simp [BuildPSU, binaryWrite, h1, h2]
  · simp [BuildPSU, binaryWrite, h1]

/-- C18: for every state of the padding buffer (the reachable ones and the initial
empty buffer included) and every file, the buffer `writeFile` slices has length at
least `padSize`, so `padding[:padSize]` is in range, and neither `writeFile` nor
`BuildPSU` panics, whatever the sink does. -/
theorem padding_slice_in_range {σ ε : Type} (b : Writer σ ε) (s : σ) (padding : List Byte)
    (f : File) (now1 now2 : Time) (rootDirName : List Byte) (files : List File) :
    padSize f ≤ (growPadding padding f).length ∧
      sliceTo (growPadding padding f) (padSize f) =
        some ((growPadding padding f).take (padSize f)) ∧
      padSize f ≤ (growPadding [] f).length ∧
      ((writeFile b s padding f).padding = padding ∨
        (writeFile b s padding f).padding = growPadding padding f) ∧
      (writeFile b s padding f).ret ≠ Ret.panic ∧
      (BuildPSU b s padding now1 now2 rootDirName files).ret ≠ Ret.panic := by
  refine ⟨growPadding_length padding f, sliceTo_growPadding padding f,
    growPadding_length [] f, ?_, writeFile_no_panic b s padding f,
    BuildPSU_no_panic b s padding now1 now2 rootDirName files⟩
  rw [writeFile_eq]
  rcases h1 : b.Write s (encodeHeader (fileHeader f)) with ⟨s1, _ | e1⟩
  · rcases h2 : b.Write s1 f.Data with ⟨s2, _ | e2⟩
    · rcases h3 : b.Write s2 ((growPadding padding f).take (padSize f)) with ⟨s3, _ | e3⟩
      · simp only [h2, h3, or_true]
      · simp only [h2, h3, or_true]
    · simp only [h2, or_true]
  · simp only [true_or]

theorem fileBlock_length (f : File) : (fileBlock f).length = blockSize f := by
  simp only [fileBlock, blockSize, padSize, List.length_append, encodeHeader_length,
    List.length_replicate]
  omega

theorem flatMap_fileBlock_length (fs : List File) :
    (fs.flatMap fileBlock).length = (fs.map blockSize).sum := by
  induction fs with
  | nil => rfl
  | cons f fs ih =>
    rw [List.flatMap_cons, List.length_append, ih, fileBlock_length, List.map_cons,
      List.sum_cons]

theorem blockSize_sum_mod (fs : List File) : (fs.map blockSize).sum % 512 = 0 := by
  induction fs with
  | nil => rfl
  | cons f fs ih =>
    have hf : blockSize f = 512 * (1 + 2 * (f.Data.length / 1024 + 1)) := by
      unfold blockSize
      omega
    rw [List.map_cons, List.sum_cons, hf]
    omega

/-- C17: `writeFile` computes `padSize = 1024 - L mod 1024`, which lies in 1..1024,
and writes that many padding bytes; a file occupies `512 + 1024 * (L / 1024 + 1)`
output bytes (1536 for an empty payload), and the output of `BuildPSU` has length
1536 plus the sum of these sizes, a multiple of 512. -/
theorem pad_size_and_block_size (n : Nat) (f : File) (now1 now2 : Time)
    (rootDirName : List Byte) (files : List File) :
    padSize f = 1024 - f.Data.length % 1024 ∧ 1 ≤ padSize f ∧ padSize f ≤ 1024 ∧
      paddingWritten (make n) f = padSize f ∧
      (writeFile bufWriter [] (make n) f).sink.length =
        512 + 1024 * (f.Data.length / 1024 + 1) ∧
      (writeFile bufWriter [] (make n) { f with Data := [] }).sink.length = 1536 ∧
      (BuildPSU bufWriter [] (make n) now1 now2 rootDirName files).sink.length =
        1536 + (files.map (fun g => 512 + 1024 * (g.Data.length / 1024 + 1))).sum ∧
      (BuildPSU bufWriter [] (make n) now1 now2 rootDirName files).sink.length % 512 = 0 := by
  have hb : ∀ g : File, (writeFile bufWriter [] (make n) g).sink.length = blockSize g := by
    intro g
    rw [← fileBlock_length, writeFile_buf_sink, fileBlock]
  have hl := BuildPSU_buf_length n now1 now2 rootDirName files
  rw [flatMap_fileBlock_length] at hl
  have hm := blockSize_sum_mod files
  refine ⟨rfl, padSize_pos f, padSize_le f, ?_, hb f, ?_, hl, ?_⟩
  · rw [paddingWritten_make, padSize]
  · rw [hb]
    simp only [blockSize, List.length_nil, Nat.zero_div]
  · rw [hl]
    omega

/-- C19: the size fields are stored modulo `2^32`: the file header holds
`L mod 2^32` while all `L` payload bytes follow it, the root header holds
`(N + 3) mod 2^32`, and the file header's size equals the payload length exactly
when `L < 2^32`. -/
theorem size_fields_wrap_at_32_bits (n : Nat) (f : File) (now1 now2 : Time)
    (rootDirName : List Byte) (files : List File) :
    getUint32 (field (headerAt (writeFile bufWriter [] (make n) f).sink 0) 4 4) =
        f.Data.length % 2 ^ 32 ∧
      field (writeFile bufWriter [] (make n) f).sink 512 f.Data.length = f.Data ∧
      getUint32 (field (headerAt (BuildPSU bufWriter [] (make n) now1 now2 rootDirName
        files).sink 0) 4 4) = (files.length + 3) % 2 ^ 32 ∧
      (getUint32 (field (headerAt (writeFile bufWriter [] (make n) f).sink 0) 4 4) =
        f.Data.length ↔ f.Data.length < 2 ^ 32) := by
  have h1 : getUint32 (field (headerAt (writeFile bufWriter [] (make n) f).sink 0) 4 4) =
      f.Data.length % 2 ^ 32 := by
    rw [writeFile_header, encodeHeader_size, getUint32_putUint32]
    show uint32 f.Data.length % 4294967296 = f.Data.length % 2 ^ 32
    unfold uint32
    omega
  refine ⟨h1, ?_, ?_, ?_⟩
  · rw [writeFile_buf_sink]
    exact field_append _ _ _ _ _ (encodeHeader_length _) rfl
  · rw [BuildPSU_header0, encodeHeader_size, getUint32_putUint32]
    show uint32 (3 + files.length) % 4294967296 = (files.length + 3) % 2 ^ 32
    unfold uint32
    omega
  · rw [h1]
    constructor
    · intro h
      have := Nat.mod_lt f.Data.length (show 0 < 2 ^ 32 by decide)
      omega
    · intro h
      exact Nat.mod_eq_of_lt h

theorem writeFile_padding {σ ε : Type} (b : Writer σ ε) (s : σ) (m : Nat) (f : File) :
    (writeFile b s (make m) f).padding = make ((writeFileRequests b s f).foldl max m) := by
  rw [writeFile_eq, writeFileRequests, growPadding_make]
  rcases h1 : b.Write s (encodeHeader (fileHeader f)) with ⟨s1, _ | e1⟩
  · rcases h2 : b.Write s1 f.Data with ⟨s2, _ | e2⟩
    · rcases h3 : b.Write s2 ((make (max m (padSize f))).take (padSize f)) with ⟨s3, _ | e3⟩
      · simp only [h2, h3, List.foldl_cons, List.foldl_nil]
      · simp only [h2, h3, List.foldl_cons, List.foldl_nil]
    · simp only [h2, List.foldl_cons, List.foldl_nil]
  · simp only [List.foldl_nil]

theorem writeFiles_padding {σ ε : Type} (b : Writer σ ε) (fs : List File) (s : σ) (m : Nat) :
    (writeFiles b s (make m) fs).padding =
      make ((writeFilesRequests b s (make m) fs).foldl max m) := by
  induction fs generalizing s m with
  | nil => rfl
  | cons f fs ih =>
    have hp := writeFile_padding b s m f
    generalize hr : writeFile b s (make m) f = r at hp
    obtain ⟨rs, rp, rr⟩ := r
    simp only at hp
    subst hp
    cases rr with
    | nil =>
      simp only [writeFiles, writeFilesRequests, hr, List.foldl_append]
      exact ih rs _
    | error e => simp only [writeFiles, writeFilesRequests, hr, List.append_nil]
    | panic => simp only [writeFiles, writeFilesRequests, hr, List.append_nil]

theorem BuildPSU_padding {σ ε : Type} (b : Writer σ ε) (s : σ) (m : Nat) (now1 now2 : Time)
    (rootDirName : List Byte) (files : List File) :
    (BuildPSU b s (make m) now1 now2 rootDirName files).padding =
      make ((buildRequests b s (make m) now1 now2 rootDirName files).foldl max m) := by
  rcases h1 : b.Write s (encodeHeader (rootHeader now1 now2 rootDirName files))
    with ⟨s1, _ | e1⟩
  · rcases h2 : b.Write s1 (encodeHeader (dotHeader (rootHeader now1 now2 rootDirName files)))
      with ⟨s2, _ | e2⟩
    · rcases h3 : b.Write s2
        (encodeHeader (dotDotHeader (dotHeader (rootHeader now1 now2 rootDirName files))))
        with ⟨s3, _ | e3⟩
      · simp only [BuildPSU, buildRequests, binaryWrite, h1, h2, h3]
        exact writeFiles_padding b files s3 m
      · simp only [BuildPSU, buildRequests, binaryWrite, h1, h2, h3, List.foldl_nil]
    · simp only [BuildPSU, buildRequests, binaryWrite, h1, h2, List.foldl_nil]
  · simp only [BuildPSU, buildRequests, binaryWrite, h1, List.foldl_nil]

theorem foldl_max_ge (rs : List Nat) (a : Nat) :
    a ≤ rs.foldl max a ∧ ∀ r ∈ rs, r ≤ rs.foldl max a := by
  induction rs generalizing a with
  | nil => simp
  | cons x xs ih =>
    obtain ⟨h1, h2⟩ := ih (max a x)
    simp only [List.foldl_cons, List.mem_cons]
    refine ⟨le_trans (le_max_left a x) h1, ?_⟩
    rintro r (rfl | hr)
    · exact le_trans (le_max_right a r) h1
    · exact h2 r hr

theorem foldl_max_mem (rs : List Nat) (a : Nat) : rs.foldl max a = a ∨ rs.foldl max a ∈ rs := by
  induction rs generalizing a with
  | nil => simp
  | cons x xs ih =>
    simp only [List.foldl_cons, List.mem_cons]
    rcases ih (max a x) with h | h
    · rw [h]
      rcases le_total a x with hax | hax
      · exact Or.inr (Or.inl (max_eq_right hax))
      · exact Or.inl (max_eq_left hax)
    · exact Or.inr (Or.inr h)


theorem overwrite_self (x : List Byte) : overwrite x x = x := by
  simp only [overwrite, List.take_length, List.drop_length, List.append_nil]

theorem storeSlice_self (padding : List Byte) (n : Nat) :
    storeSlice padding n (padding.take n) = padding := by
  rw [storeSlice, overwrite_self, List.take_append_drop]

theorem writeFileShared_eq {σ ε : Type} (b : SharedWriter σ ε) (s : σ) (padding : List Byte)
    (f : File) :
    writeFileShared b s padding f =
      match b.Write s (encodeHeader (fileHeader f)) with
      | (s1, _, some err) => ⟨s1, padding, .error err⟩
      | (s1, _, none) =>
        match b.Write s1 f.Data with
        | (s2, _, some err) => ⟨s2, growPadding padding f, .error err⟩
        | (s2, _, none) =>
          match b.Write s2 ((growPadding padding f).take (padSize f)) with
          | (s3, after, some err) =>
            ⟨s3, storeSlice (growPadding padding f) (padSize f) after, .error err⟩
          | (s3, after, none) =>
            ⟨s3, storeSlice (growPadding padding f) (padSize f) after, .nil⟩ := by
  have hsl := sliceTo_growPadding padding f
  unfold growPadding at hsl
  simp only [writeFileShared, growPadding, hsl]

theorem Writer.lift_honest {σ ε : Type} (b : Writer σ ε) : b.lift.Honest := fun _ _ => rfl

theorem Writer.lower_lift {σ ε : Type} (b : Writer σ ε) : b.lift.lower = b := rfl

theorem writeFileShared_honest {σ ε : Type} (b : SharedWriter σ ε) (hb : b.Honest) (s : σ)
    (padding : List Byte) (f : File) :
    writeFileShared b s padding f = writeFile b.lower s padding f := by
  rw [writeFileShared_eq, writeFile_eq]
  rcases h1 : b.Write s (encodeHeader (fileHeader f)) with ⟨s1, a1, _ | e1⟩
  · rcases h2 : b.Write s1 f.Data with ⟨s2, a2, _ | e2⟩
    · have h := hb s2 ((growPadding padding f).take (padSize f))
      rcases h3 : b.Write s2 ((growPadding padding f).take (padSize f)) with ⟨s3, a3, _ | e3⟩
      · rw [h3] at h
        simp only at h
        subst h
        simp only [SharedWriter.lower, h1, h2, h3, storeSlice_self]
      · rw [h3] at h
        simp only at h
        subst h
        simp only [SharedWriter.lower, h1, h2, h3, storeSlice_self]
    · simp only [SharedWriter.lower, h1, h2]
  · simp only [SharedWriter.lower, h1]

theorem writeFilesShared_honest {σ ε : Type} (b : SharedWriter σ ε) (hb : b.Honest)
    (fs : List File) (s : σ) (padding : List Byte) :
    writeFilesShared b s padding fs = writeFiles b.lower s padding fs := by
  induction fs generalizing s padding with
  | nil => rfl
  | cons f fs ih =>
    have h := writeFileShared_honest b hb s padding f
    generalize hr : writeFile b.lower s padding f = r at h
    obtain ⟨rs, rp, rr⟩ := r
    cases rr with
    | nil => simp only [writeFilesShared, writeFiles, h, hr]; exact ih rs rp
    | error e => simp only [writeFilesShared, writeFiles, h, hr]
    | panic => simp only [writeFilesShared, writeFiles, h, hr]

theorem BuildPSUShared_honest {σ ε : Type} (b : SharedWriter σ ε) (hb : b.Honest) (s : σ)
    (padding : List Byte) (now1 now2 : Time) (rootDirName : List Byte) (files : List File) :
    BuildPSUShared b s padding now1 now2 rootDirName files =
      BuildPSU b.lower s padding now1 now2 rootDirName files := by
  rcases h1 : b.Write s (encodeHeader (rootHeader now1 now2 rootDirName files))
    with ⟨s1, a1, _ | e1⟩
  · rcases h2 : b.Write s1 (encodeHeader (dotHeader (rootHeader now1 now2 rootDirName files)))
      with ⟨s2, a2, _ | e2⟩
    · rcases h3 : b.Write s2
        (encodeHeader (dotDotHeader (dotHeader (rootHeader now1 now2 rootDirName files))))
        with ⟨s3, a3, _ | e3⟩
      · simp only [BuildPSUShared, BuildPSU, binaryWrite, SharedWriter.lower, h1, h2, h3]
        exact writeFilesShared_honest b hb files s3 padding
      · simp only [BuildPSUShared, BuildPSU, binaryWrite, SharedWriter.lower, h1, h2, h3]
    · simp only [BuildPSUShared, BuildPSU, binaryWrite, SharedWriter.lower, h1, h2]
  · simp only [BuildPSUShared, BuildPSU, binaryWrite, SharedWriter.lower, h1]

theorem writeFileShared_lift {σ ε : Type} (b : Writer σ ε) (s : σ) (padding : List Byte)
    (f : File) : writeFileShared b.lift s padding f = writeFile b s padding f :=
  writeFileShared_honest b.lift b.lift_honest s padding f

theorem BuildPSUShared_lift {σ ε : Type} (b : Writer σ ε) (s : σ) (padding : List Byte)
    (now1 now2 : Time) (rootDirName : List Byte) (files : List File) :
    BuildPSUShared b.lift s padding now1 now2 rootDirName files =
      BuildPSU b s padding now1 now2 rootDirName files :=
  BuildPSUShared_honest b.lift b.lift_honest s padding now1 now2 rootDirName files

theorem Reach.eq_make {rs : List Nat} {padding : List Byte} (h : Reach rs padding) :
    padding = make (largest rs) := by
  induction h with
  | init => rfl
  | writeFile b hb s f _ ih =>
    rw [writeFileShared_honest b hb, ih, writeFile_padding, largest, largest,
      List.foldl_append]
  | buildPSU b hb s now1 now2 rootDirName files _ ih =>
    rw [BuildPSUShared_honest b hb, ih, BuildPSU_padding]
    simp only [largest, List.foldl_append]

theorem storeSlice_replicate (n : Nat) (x y : Byte) :
    storeSlice (List.replicate n x) n (List.replicate n y) = List.replicate n y := by
  simp [storeSlice, overwrite]

theorem growPadding_nil (f : File) : growPadding [] f = make (padSize f) := by
  have h := growPadding_make 0 f
  rw [Nat.zero_max] at h
  exact h

theorem writeFileShared_scribbler (s : List Byte) (f : File) :
    (writeFileShared scribbler s [] f).padding = List.replicate (padSize f) 255 := by
  rw [writeFileShared_eq, growPadding_nil]
  simp only [scribbler, make, List.take_replicate, Nat.min_self, List.length_replicate,
    storeSlice_replicate]

theorem padSize_file10 : padSize file10 = 1014 := by decide

theorem growPadding_of_le (padding : List Byte) (f : File) (h : padSize f ≤ padding.length) :
    growPadding padding f = padding := by
  unfold growPadding
  rw [if_pos (padSize_pos f), if_neg (by omega)]

theorem writeFile_buf_any (s : List Byte) (padding : List Byte) (f : File) :
    writeFile bufWriter s padding f =
      ⟨s ++ encodeHeader (fileHeader f) ++ f.Data ++ (growPadding padding f).take (padSize f),
        growPadding padding f, .nil⟩ := by
  rw [writeFile_eq]
  simp only [bufWriter]

theorem BuildPSU_buf_single_any (padding : List Byte) (now1 now2 : Time)
    (rootDirName : List Byte) (f : File) :
    (BuildPSU bufWriter [] padding now1 now2 rootDirName [f]).sink =
      encodeHeader (rootHeader now1 now2 rootDirName [f]) ++
        encodeHeader (dotHeader (rootHeader now1 now2 rootDirName [f])) ++
        encodeHeader (dotDotHeader (dotHeader (rootHeader now1 now2 rootDirName [f]))) ++
        encodeHeader (fileHeader f) ++ f.Data ++ (growPadding padding f).take (padSize f) := by
  have h := writeFile_buf_any
    ([] ++ encodeHeader (rootHeader now1 now2 rootDirName [f]) ++
      encodeHeader (dotHeader (rootHeader now1 now2 rootDirName [f])) ++
      encodeHeader (dotDotHeader (dotHeader (rootHeader now1 now2 rootDirName [f]))))
    padding f
  rw [List.nil_append] at h
  simp only [BuildPSU, binaryWrite, writeFiles]
  simp only [bufWriter] at h ⊢
  rw [List.nil_append, h]

theorem writeFile_rec_any (s : List (List Byte)) (padding : List Byte) (f : File) :
    writeFile recWriter s padding f =
      ⟨s ++ [encodeHeader (fileHeader f)] ++ [f.Data] ++
          [(growPadding padding f).take (padSize f)], growPadding padding f, .nil⟩ := by
  rw [writeFile_eq]
  simp only [recWriter]

theorem scribbled_eq :
    (writeFileShared scribbler [] [] file10).padding = List.replicate 1014 255 := by
  rw [writeFileShared_scribbler, padSize_file10]

theorem take_scribbled :
    (growPadding (List.replicate 1014 255) file10).take (padSize file10) =
      List.replicate 1014 255 := by
  rw [growPadding_of_le _ _ (by rw [padSize_file10, List.length_replicate]), padSize_file10,
    List.take_replicate, Nat.min_self]

theorem take_fresh :
    (growPadding [] file10).take (padSize file10) = List.replicate 1014 0 := by
  rw [growPadding_nil, padSize_file10, make, List.take_replicate, Nat.min_self]

/-- C16 (as stated, refuted): a sink that fills the slice it is handed with `0xFF`
leaves the shared buffer, after one `writeFile` call from the initial nil buffer,
as 1014 bytes `0xFF`; the buffer then holds non-zero bytes and the next call, on a
faultless sink, writes them as padding. -/
theorem padding_buffer_scribbled_by_sink :
    ReachAny (writeFileShared scribbler [] [] file10).padding ∧
      (writeFileShared scribbler [] [] file10).padding = List.replicate 1014 255 ∧
      ¬ (∀ x ∈ (writeFileShared scribbler [] [] file10).padding, x = 0) ∧
      (writeFileShared recWriter.lift []
        (writeFileShared scribbler [] [] file10).padding file10).sink =
          [encodeHeader (fileHeader file10), file10.Data, List.replicate 1014 255] := by
  refine ⟨ReachAny.writeFile scribbler [] file10 ReachAny.init, scribbled_eq, ?_, ?_⟩
  · rw [scribbled_eq]
    intro h
    have h255 := h 255 (List.mem_replicate.mpr ⟨by decide, rfl⟩)
    exact absurd h255 (by decide)
  · rw [scribbled_eq, writeFileShared_lift, writeFile_rec_any, take_scribbled]
    rfl

/-- C16 (amended): after any sequence of `writeFile` and `BuildPSU` calls from the
initial nil buffer on sinks that leave the slices they are handed as they found
them, the shared padding buffer holds only zero bytes and its length is the largest
padding size requested so far; a further call on such a sink never shrinks it; the
padding written for a file is `padSize` zero bytes, and the bytes written for a
file are those written from the initial buffer, whatever was encoded before. -/
theorem padding_buffer_is_zero_and_largest {rs : List Nat} {padding : List Byte}
    (h : Reach rs padding) {σ ε : Type} (b : SharedWriter σ ε) (hb : b.Honest) (s : σ)
    (f : File) (now1 now2 : Time) (rootDirName : List Byte) (files : List File) :
    padding = List.replicate (largest rs) 0 ∧ (∀ x ∈ padding, x = 0) ∧
      padding.length = largest rs ∧ (∀ r ∈ rs, r ≤ padding.length) ∧
      (rs = [] ∨ padding.length ∈ rs) ∧
      padding.length ≤ (writeFileShared b s padding f).padding.length ∧
      padding.length ≤
        (BuildPSUShared b s padding now1 now2 rootDirName files).padding.length ∧
      (writeFileShared recWriter.lift [] padding f).sink =
        [encodeHeader (fileHeader f), f.Data, List.replicate (padSize f) 0] ∧
      (writeFileShared bufWriter.lift [] padding f).sink =
        (writeFileShared bufWriter.lift [] [] f).sink ∧
      (BuildPSUShared bufWriter.lift [] padding now1 now2 rootDirName files).sink =
        (BuildPSUShared bufWriter.lift [] [] now1 now2 rootDirName files).sink := by
  have hp := h.eq_make
  subst hp
  rw [writeFileShared_honest b hb, BuildPSUShared_honest b hb, writeFileShared_lift,
    writeFileShared_lift, writeFileShared_lift, BuildPSUShared_lift, BuildPSUShared_lift]
  have hlen : (make (largest rs)).length = largest rs := by
    simp only [make, List.length_replicate]
  refine ⟨rfl, ?_, hlen, ?_, ?_, ?_, ?_, ?_, ?_, ?_⟩
  · intro x hx
    exact List.eq_of_mem_replicate hx
  · intro r hr
    rw [hlen]
    exact (foldl_max_ge rs 0).2 r hr
  · rw [hlen]
    rcases foldl_max_mem rs 0 with h0 | h0
    · rcases rs with _ | ⟨x, xs⟩
      · exact Or.inl rfl
      · have hx := (foldl_max_ge (x :: xs) 0).2 x (List.mem_cons_self x xs)
        rw [h0] at hx
        have hx0 : x = 0 := by omega
        refine Or.inr ?_
        rw [largest, h0, hx0]
        exact List.mem_cons_self 0 xs
    · exact Or.inr h0
  · rw [writeFile_padding, hlen]
    simp only [make, List.length_replicate]
    exact (foldl_max_ge _ _).1
  · rw [BuildPSU_padding, hlen]
    simp only [make, List.length_replicate]
    exact (foldl_max_ge _ _).1
  · rw [writeFile_rec, List.nil_append]
  · exact (writeFile_buf_sink _ f).trans (writeFile_buf_sink 0 f).symm
  · exact (BuildPSU_buf_sink _ now1 now2 rootDirName files).trans
      (BuildPSU_buf_sink 0 now1 now2 rootDirName files).symm

set_option maxRecDepth 8192 in
/-- C16 witness: after `writeFile` of an empty file (1024 padding bytes requested)
and then `BuildPSU` of a file with a 10-byte payload (1014 requested), both on a sink
that leaves its slices alone, the buffer is 1024 zero bytes. -/
theorem padding_buffer_witness :
    (BuildPSUShared recWriter.lift [] (writeFileShared recWriter.lift [] [] file0).padding
        ⟨0, 0⟩ ⟨0, 0⟩ [65] [file10]).padding = List.replicate 1024 0 :=
  (padding_buffer_is_zero_and_largest
    (Reach.buildPSU recWriter.lift recWriter.lift_honest [] ⟨0, 0⟩ ⟨0, 0⟩ [65] [file10]
      (Reach.writeFile recWriter.lift recWriter.lift_honest [] file0 Reach.init))
    recWriter.lift recWriter.lift_honest [] file0 ⟨0, 0⟩ ⟨0, 0⟩ [65] []).1

/-- C13 (as stated, refuted): the initial nil buffer and the buffer left by a sink
that fills the slice it is handed with `0xFF` are both reachable; two runs of
`BuildPSU` from them, on the same root name and file and with different clock
readings, write 1014 zero bytes and 1014 bytes `0xFF` as padding, so their outputs
differ from offset 1536 on. -/
theorem runs_differ_in_padding_after_scribbling :
    ReachAny [] ∧ ReachAny (writeFileShared scribbler [] [] file10).padding ∧
      (BuildPSU bufWriter [] [] ⟨0, 0⟩ ⟨0, 0⟩ [65] [file10]).sink.drop 2058 =
        List.replicate 1014 0 ∧
      (BuildPSU bufWriter [] (writeFileShared scribbler [] [] file10).padding ⟨60, 0⟩ ⟨60, 0⟩
        [65] [file10]).sink.drop 2058 = List.replicate 1014 255 ∧
      (BuildPSU bufWriter [] [] ⟨0, 0⟩ ⟨0, 0⟩ [65] [file10]).sink.drop 1536 ≠
        (BuildPSU bufWriter [] (writeFileShared scribbler [] [] file10).padding ⟨60, 0⟩
          ⟨60, 0⟩ [65] [file10]).sink.drop 1536 := by
  have hlen : ∀ now1 now2 : Time,
      (encodeHeader (rootHeader now1 now2 [65] [file10]) ++
        encodeHeader (dotHeader (rootHeader now1 now2 [65] [file10])) ++
        encodeHeader (dotDotHeader (dotHeader (rootHeader now1 now2 [65] [file10]))) ++
        encodeHeader (fileHeader file10) ++ file10.Data).length = 2058 := by
    intro now1 now2
    simp only [List.length_append, encodeHeader_length]
    rfl
  have h1 : (BuildPSU bufWriter [] [] ⟨0, 0⟩ ⟨0, 0⟩ [65] [file10]).sink.drop 2058 =
      List.replicate 1014 0 := by
    rw [BuildPSU_buf_single_any, take_fresh]
    exact List.drop_left' (hlen _ _)
  have h2 : (BuildPSU bufWriter [] (writeFileShared scribbler [] [] file10).padding ⟨60, 0⟩
      ⟨60, 0⟩ [65] [file10]).sink.drop 2058 = List.replicate 1014 255 := by
    rw [scribbled_eq, BuildPSU_buf_single_any, take_scribbled]
    exact List.drop_left' (hlen _ _)
  refine ⟨ReachAny.init, ReachAny.writeFile scribbler [] file10 ReachAny.init, h1, h2, ?_⟩
  intro h
  have hd := congrArg (List.drop 522) h
  rw [List.drop_drop, List.drop_drop] at hd
  have hd2 : List.replicate 1014 (0 : Byte) = List.replicate 1014 255 := by
    rw [← h1, ← h2]
    exact hd
  have hm : (255 : Byte) ∈ List.replicate 1014 (0 : Byte) := by
    rw [hd2]
    exact List.mem_replicate.mpr ⟨by decide, rfl⟩
  exact absurd (List.eq_of_mem_replicate hm) (by decide)

/-- C13 (amended): two runs of `BuildPSU` on the same root name and files, with
different clock readings and from any two states of the padding buffer reachable
through sinks that leave the slices they are handed as they found them, give
outputs of equal length whose first three headers agree outside the timestamp
fields (offsets 8..15 and 24..31) and whose bytes from offset 1536 on are
identical. -/
theorem runs_differ_only_in_directory_timestamps {rs1 rs2 : List Nat} {p1 p2 : List Byte}
    (h1 : Reach rs1 p1) (h2 : Reach rs2 p2) (a1 a2 b1 b2 : Time) (rootDirName : List Byte)
    (files : List File) :
    (BuildPSU bufWriter [] p1 a1 a2 rootDirName files).sink.length =
        (BuildPSU bufWriter [] p2 b1 b2 rootDirName files).sink.length ∧
      outsideTimestamps (headerAt (BuildPSU bufWriter [] p1 a1 a2 rootDirName
          files).sink 0) =
        outsideTimestamps (headerAt (BuildPSU bufWriter [] p2 b1 b2 rootDirName
          files).sink 0) ∧
      outsideTimestamps (headerAt (BuildPSU bufWriter [] p1 a1 a2 rootDirName
          files).sink 1) =
        outsideTimestamps (headerAt (BuildPSU bufWriter [] p2 b1 b2 rootDirName
          files).sink 1) ∧
      outsideTimestamps (headerAt (BuildPSU bufWriter [] p1 a1 a2 rootDirName
          files).sink 2) =
        outsideTimestamps (headerAt (BuildPSU bufWriter [] p2 b1 b2 rootDirName
          files).sink 2) ∧
      (BuildPSU bufWriter [] p1 a1 a2 rootDirName files).sink.drop 1536 =
        (BuildPSU bufWriter [] p2 b1 b2 rootDirName files).sink.drop 1536 := by
  rw [h1.eq_make, h2.eq_make]
  exact runs_agree_outside_timestamps _ _ a1 a2 b1 b2 rootDirName files

/-- C13 witness: a run from the initial buffer and a run from the buffer left by
`writeFile` of an empty file on a sink that leaves its slices alone. -/
theorem runs_differ_only_witness :
    (BuildPSU bufWriter [] [] ⟨0, 0⟩ ⟨0, 0⟩ [65] [file10]).sink.drop 1536 =
      (BuildPSU bufWriter [] (writeFileShared recWriter.lift [] [] file0).padding ⟨60, 0⟩
        ⟨60, 0⟩ [65] [file10]).sink.drop 1536 :=
  (runs_differ_only_in_directory_timestamps Reach.init
    (Reach.writeFile recWriter.lift recWriter.lift_honest [] file0 Reach.init)
    ⟨0, 0⟩ ⟨0, 0⟩ ⟨60, 0⟩ ⟨60, 0⟩ [65] [file10]).2.2.2.2

end PSU
